import Mathlib

/-!
Verification of the Vincenty direct/inverse geodesic solvers of
`geodesy/ellipsoidalVincenty.py` (version 17.02.01).

The solver code is embedded shallowly over the exact reals `ℝ`:
Python floats become real numbers, `math.sin`/`cos`/`tan`/`atan2`/`hypot`
become their exact counterparts, and the bounded `for ... else` convergence
loops become fuel-indexed structural recursions.  Exceptions become an
inductive error type inside `Except`.

Collaborator modules that are referenced by `ellipsoidalVincenty.py` but are
not part of the sources (`utils`, `datum`, `ellipsoidalBase`) are modelled
from the specification; every such definition carries a doc comment starting
with `Modelled from the spec:`.
-/

open Real

noncomputable section

/-- Modelled from the spec: `utils.EPS` (module `utils` is not in the sources),
the "small absolute threshold" used for the coincidence and the equatorial-line
tests; the source binds it to the IEEE double machine epsilon. -/
def EPS : ℝ := 2.220446049250313e-16

/-- Python `math.hypot x y = sqrt (x^2 + y^2)` in exact arithmetic. -/
def hypot (x y : ℝ) : ℝ := Real.sqrt (x ^ 2 + y ^ 2)

/-- Modelled from the spec: `utils.radians`, degrees to radians. -/
def radians (d : ℝ) : ℝ := d * π / 180

/-- Radians to degrees (inverse of `radians`). -/
def degrees (r : ℝ) : ℝ := r * 180 / π

/-- Modelled from the spec: the common wrapping core of `utils.degrees90`,
`utils.degrees180` and `utils.degrees360`: reduce a value in degrees modulo
360 into `[0, 360)` and subtract a full turn when the result exceeds the
wrap point `w`. -/
def wrapDeg (d w : ℝ) : ℝ :=
  let x := d - 360 * (⌊d / 360⌋ : ℤ)
  if x > w then x - 360 else x

/-- Modelled from the spec: `utils.degrees360`, radians to compass degrees
normalized to `[0, 360)`. -/
def degrees360 (r : ℝ) : ℝ := wrapDeg (degrees r) 360

/-- Modelled from the spec: `utils.degrees180`, radians to degrees
normalized to `(-180, 180]`. -/
def degrees180 (r : ℝ) : ℝ := wrapDeg (degrees r) 180

/-- Modelled from the spec: `utils.degrees90`, radians to degrees wrapped at
90 degrees. -/
def degrees90 (r : ℝ) : ℝ := wrapDeg (degrees r) 90

/-- Python `math.atan2 y x` (two-argument arctangent) in exact arithmetic,
with value in `(-pi, pi]` and `atan2 0 0 = 0`. -/
def atan2 (y x : ℝ) : ℝ :=
  if 0 < x then Real.arctan (y / x)
  else if x < 0 then
    (if 0 ≤ y then Real.arctan (y / x) + π else Real.arctan (y / x) - π)
  else
    (if 0 < y then π / 2 else if y < 0 then -(π / 2) else 0)

/-- Modelled from the spec: an ellipsoid record of the `datum` module registry
(not in the sources): semi-major axis `a`, semi-minor axis `b`, flattening `f`
and second eccentricity squared `e22`, looked up by `name`. -/
structure Ellipsoid where
  name : String
  a : ℝ
  b : ℝ
  f : ℝ
  e22 : ℝ

/-- Modelled from the spec: a datum owning an ellipsoid (module `datum` is not
in the sources). -/
structure Datum where
  name : String
  ellipsoid : Ellipsoid

/-- An `ellipsoidalVincenty.LatLon` point: latitude, longitude (degrees),
height, datum, plus the per-instance Vincenty convergence configuration
`_epsilon` / `_iterations`. -/
structure LatLon where
  lat : ℝ
  lon : ℝ
  height : ℝ
  datum : Datum
  epsilon : ℝ
  iterations : ℕ

/-- Default `LatLon._epsilon` class attribute (1.0e-12). -/
def epsilonDefault : ℝ := 1e-12

/-- Default `LatLon._iterations` class attribute (50). -/
def iterationsDefault : ℕ := 50

/-- The `VincentyError` / mismatch failures, one constructor per distinct
failure message: `mismatch` models the ellipsoid-mismatch failure of the
(spec-modelled) `ellipsoids` collaborator carrying both ellipsoid names;
`coincident` is `VincentyError('%r coincident with %r')`; `noConvergence`
is `VincentyError('no convergence ...')` of the direct (no second point)
or the inverse (second point present) solver. -/
inductive VincentyErr where
  | mismatch (n1 n2 : String)
  | coincident (p q : LatLon)
  | noConvergence (p : LatLon) (q : Option LatLon)

/-- `_p2 c2a ab2`: Vincenty's A and B polynomials (source `_p2`). -/
def _p2 (c2a ab2 : ℝ) : ℝ × ℝ :=
  let u2 := c2a * ab2
  (u2 / 16384 * (4096 + u2 * (-768 + u2 * (320 - 175 * u2))) + 1,
   u2 / 1024 * (256 + u2 * (-128 + u2 * (74 - 47 * u2))))

/-- `_r3 a f`: reduced cos, sin, tan of latitude `a` (source `_r3`). -/
def _r3 (a f : ℝ) : ℝ × ℝ × ℝ :=
  let t := (1 - f) * Real.tan (radians a)
  let c := 1 / hypot 1 t
  (c, t * c, t)

/-- `_dl f c2a sa s cs ss c2sm`: the longitude-correction series (source `_dl`). -/
def _dl (f c2a sa s cs ss c2sm : ℝ) : ℝ :=
  let C := f / 16 * c2a * (4 + f * (4 - 3 * c2a))
  (1 - C) * f * sa * (s + C * ss * (c2sm + C * cs * (c2sm * c2sm * 2 - 1)))

/-- `_ds B cs ss c2sm`: the distance-correction series (source `_ds`). -/
def _ds (B cs ss c2sm : ℝ) : ℝ :=
  let c2sm2 := 2 * c2sm * c2sm - 1
  let ss2 := (ss * ss * 4 - 3) * (c2sm2 * 2 - 1)
  B * ss * (c2sm + B / 4 * (c2sm2 * cs - B / 6 * c2sm * ss2))

/-- The values live at the exit of the direct solver's convergence loop:
`cs`, `ss`, `c2sm` are the trig values of the pre-update sigma of the last
iteration and `s` is the updated sigma. -/
structure DExit where
  cs : ℝ
  ss : ℝ
  c2sm : ℝ
  s : ℝ

/-- One sigma update of the direct solver's loop body:
`s := d + _ds(B, cos s, sin s, cos (s12 + s))`. -/
def dUpd (d B s12 s : ℝ) : ℝ :=
  d + _ds B (Real.cos s) (Real.sin s) (Real.cos (s12 + s))

/-- The sigma iterates of the direct solver's loop, starting from `s = d`. -/
def dSeq (d B s12 : ℝ) : ℕ → ℝ
  | 0 => d
  | n + 1 => dUpd d B s12 (dSeq d B s12 n)

/-- The direct solver's convergence loop (`for _ in range(self._iterations)`
in `LatLon._direct`): update sigma, break when the change is below epsilon,
raise `VincentyError('no convergence %r')` when the fuel runs out. -/
def directLoop (p : LatLon) (eps d B s12 : ℝ) : ℕ → ℝ → Except VincentyErr DExit
  | 0, _ => .error (.noConvergence p none)
  | n + 1, s =>
    let s' := dUpd d B s12 s
    if |s' - s| < eps then
      .ok ⟨Real.cos s, Real.sin s, Real.cos (s12 + s), s'⟩
    else directLoop p eps d B s12 n s'

/-- The per-pair context of the inverse solver: flattening, the fixed
longitude difference `dl` and the reduced cos/sin of both latitudes. -/
structure InvCtx where
  f : ℝ
  dl : ℝ
  c1 : ℝ
  s1 : ℝ
  c2 : ℝ
  s2 : ℝ

/-- `sin sigma` of the inverse loop body: `hypot(c2*sll, c1s2 - s1c2*cll)`. -/
def ssOf (k : InvCtx) (ll : ℝ) : ℝ :=
  hypot (k.c2 * Real.sin ll) (k.c1 * k.s2 - k.s1 * k.c2 * Real.cos ll)

/-- `cos sigma` of the inverse loop body: `s1s2 + c1c2*cll`. -/
def csOf (k : InvCtx) (ll : ℝ) : ℝ :=
  k.s1 * k.s2 + k.c1 * k.c2 * Real.cos ll

/-- `sigma = atan2(ss, cs)` of the inverse loop body. -/
def sOf (k : InvCtx) (ll : ℝ) : ℝ := atan2 (ssOf k ll) (csOf k ll)

/-- `sin alpha = c1c2 * sll / ss` of the inverse loop body. -/
def saOf (k : InvCtx) (ll : ℝ) : ℝ := k.c1 * k.c2 * Real.sin ll / ssOf k ll

/-- `cos^2 alpha = 1 - sa^2` of the inverse loop body (before the
equatorial-line zeroing). -/
def c2aOf (k : InvCtx) (ll : ℝ) : ℝ := 1 - saOf k ll * saOf k ll

/-- `cos 2sigma_m = cs - 2*s1s2/c2a` of the inverse loop body. -/
def c2smOf (k : InvCtx) (ll : ℝ) : ℝ :=
  csOf k ll - 2 * k.s1 * k.s2 / c2aOf k ll

/-- One lambda update of the inverse loop body: the equatorial-line special
case `ll = dl + f*sa*s` when `|c2a| < EPS`, else `ll = dl + _dl(...)`. -/
def iUpd (k : InvCtx) (ll : ℝ) : ℝ :=
  if |c2aOf k ll| < EPS then k.dl + k.f * saOf k ll * sOf k ll
  else k.dl + _dl k.f (c2aOf k ll) (saOf k ll) (sOf k ll) (csOf k ll) (ssOf k ll) (c2smOf k ll)

/-- The lambda iterates of the inverse solver's loop, starting from `dl`. -/
def iSeq (k : InvCtx) : ℕ → ℝ
  | 0 => k.dl
  | n + 1 => iUpd k (iSeq k n)

/-- The values live at the exit of the inverse solver's convergence loop:
the trig values of the last iteration, the (possibly zeroed) `c2a`, the
matching `c2sm` and the updated lambda. -/
structure IExit where
  cll : ℝ
  sll : ℝ
  llPrev : ℝ
  ss : ℝ
  cs : ℝ
  s : ℝ
  sa : ℝ
  c2a : ℝ
  c2sm : ℝ
  ll : ℝ

/-- The exit bundle produced when the inverse loop breaks with current
lambda `ll`. -/
def iExitAt (k : InvCtx) (ll : ℝ) : IExit :=
  ⟨Real.cos ll, Real.sin ll, ll, ssOf k ll, csOf k ll, sOf k ll, saOf k ll,
   (if |c2aOf k ll| < EPS then 0 else c2aOf k ll),
   (if |c2aOf k ll| < EPS then 0 else c2smOf k ll),
   iUpd k ll⟩

/-- The inverse solver's convergence loop (`for _ in range(self._iterations)`
in `LatLon._inverse`): raise `VincentyError('%r coincident with %r')` when
`sin sigma < EPS`, update lambda, break when the change is below epsilon,
raise `VincentyError('no convergence %r to %r')` when the fuel runs out. -/
def inverseLoop (p q : LatLon) (k : InvCtx) (eps : ℝ) : ℕ → ℝ → Except VincentyErr IExit
  | 0, _ => .error (.noConvergence p (some q))
  | n + 1, ll =>
    if ssOf k ll < EPS then .error (.coincident p q)
    else if |iUpd k ll - ll| < eps then .ok (iExitAt k ll)
    else inverseLoop p q k eps n (iUpd k ll)

/-- The inverse context built by `LatLon._inverse` from the two points and
their shared ellipsoid: `dl = radians(abs(other.lon - self.lon))` and the
reduced latitudes of both points. -/
def invCtx (p q : LatLon) (E : Ellipsoid) : InvCtx :=
  ⟨E.f, radians |q.lon - p.lon|, (_r3 p.lat E.f).1, (_r3 p.lat E.f).2.1,
   (_r3 q.lat E.f).1, (_r3 q.lat E.f).2.1⟩

/-- The post-loop angular-distance refinement of `LatLon._inverse`: when
`c2a` is nonzero, refine sigma with the A/B series; the returned distance
is `E.b * s`. -/
def invDistance (E : Ellipsoid) (ex : IExit) : ℝ :=
  E.b * (if ex.c2a = 0 then ex.s
         else (_p2 ex.c2a E.e22).1 * (ex.s - _ds (_p2 ex.c2a E.e22).2 ex.cs ex.ss ex.c2sm))

/-- The forward azimuth computed after the inverse loop:
`degrees360(atan2(c2*sll, c1s2 - s1c2*cll))`. -/
def invForward (k : InvCtx) (ex : IExit) : ℝ :=
  degrees360 (atan2 (k.c2 * ex.sll) (k.c1 * k.s2 - k.s1 * k.c2 * ex.cll))

/-- The reverse azimuth computed after the inverse loop:
`degrees360(atan2(c1*sll, -s1c2 + c1s2*cll))`. -/
def invReverse (k : InvCtx) (ex : IExit) : ℝ :=
  degrees360 (atan2 (k.c1 * ex.sll) (-(k.s1 * k.c2) + k.c1 * k.s2 * ex.cll))

/-- `LatLon._inverse(other, azis=False)`: the ellipsoid-identity check of the
(spec-modelled) `ellipsoids` collaborator, then the convergence loop with this
point's epsilon and iteration limit, then the distance refinement. -/
def LatLon._inverseD (p q : LatLon) : Except VincentyErr ℝ :=
  if p.datum.ellipsoid.name = q.datum.ellipsoid.name then
    let E := p.datum.ellipsoid
    let k := invCtx p q E
    (inverseLoop p q k p.epsilon p.iterations k.dl).map fun ex => invDistance E ex
  else .error (.mismatch p.datum.ellipsoid.name q.datum.ellipsoid.name)

/-- `LatLon._inverse(other, azis=True)`: as `_inverseD` but additionally
returning the forward and reverse azimuths from the loop-exit values. -/
def LatLon._inverse3 (p q : LatLon) : Except VincentyErr (ℝ × ℝ × ℝ) :=
  if p.datum.ellipsoid.name = q.datum.ellipsoid.name then
    let E := p.datum.ellipsoid
    let k := invCtx p q E
    (inverseLoop p q k p.epsilon p.iterations k.dl).map fun ex =>
      (invDistance E ex, invForward k ex, invReverse k ex)
  else .error (.mismatch p.datum.ellipsoid.name q.datum.ellipsoid.name)

/-- `LatLon._direct(distance, bearing, llr=True)`: the direct Vincenty
solver returning the destination point and the final bearing.  The
destination is a freshly constructed `LatLon` carrying this point's height
and datum and the class-default convergence configuration. -/
def LatLon._direct2 (p : LatLon) (distance bearing : ℝ) : Except VincentyErr (LatLon × ℝ) :=
  let E := p.datum.ellipsoid
  let c1 := (_r3 p.lat E.f).1
  let s1 := (_r3 p.lat E.f).2.1
  let t1 := (_r3 p.lat E.f).2.2
  let ci := Real.cos (radians bearing)
  let si := Real.sin (radians bearing)
  let s12 := atan2 t1 ci * 2
  let sa := c1 * si
  let c2a0 := 1 - sa * sa
  let c2a := if c2a0 < EPS then 0 else c2a0
  let A := if c2a0 < EPS then 1 else (_p2 c2a0 E.e22).1
  let B := if c2a0 < EPS then 0 else (_p2 c2a0 E.e22).2
  let d := distance / (E.b * A)
  (directLoop p p.epsilon d B s12 p.iterations d).map fun ex =>
    let t := s1 * ex.ss - c1 * ex.cs * ci
    let r := degrees360 (atan2 sa (-t))
    let a := degrees90 (atan2 (s1 * ex.cs + c1 * ex.ss * ci) ((1 - E.f) * hypot sa t))
    let b := degrees180 (atan2 (ex.ss * si) (c1 * ex.cs - s1 * ex.ss * ci)
               - _dl E.f c2a sa ex.s ex.cs ex.ss ex.c2sm + radians p.lon)
    (⟨a, b, p.height, p.datum, epsilonDefault, iterationsDefault⟩, r)

/-- `LatLon._direct(distance, bearing, llr=False)`: the direct Vincenty
solver returning only the final bearing. -/
def LatLon._directFB (p : LatLon) (distance bearing : ℝ) : Except VincentyErr ℝ :=
  let E := p.datum.ellipsoid
  let c1 := (_r3 p.lat E.f).1
  let s1 := (_r3 p.lat E.f).2.1
  let t1 := (_r3 p.lat E.f).2.2
  let ci := Real.cos (radians bearing)
  let si := Real.sin (radians bearing)
  let s12 := atan2 t1 ci * 2
  let sa := c1 * si
  let c2a0 := 1 - sa * sa
  let A := if c2a0 < EPS then 1 else (_p2 c2a0 E.e22).1
  let B := if c2a0 < EPS then 0 else (_p2 c2a0 E.e22).2
  let d := distance / (E.b * A)
  (directLoop p p.epsilon d B s12 p.iterations d).map fun ex =>
    degrees360 (atan2 sa (-(s1 * ex.ss - c1 * ex.cs * ci)))

/-- `LatLon.destination`: `self._direct(distance, bearing, True)[0]`. -/
def LatLon.destination (p : LatLon) (distance bearing : ℝ) : Except VincentyErr LatLon :=
  (p._direct2 distance bearing).map Prod.fst

/-- `LatLon.destination2`: `self._direct(distance, bearing, True)`. -/
def LatLon.destination2 (p : LatLon) (distance bearing : ℝ) : Except VincentyErr (LatLon × ℝ) :=
  p._direct2 distance bearing

/-- `LatLon.finalBearingOn`: `self._direct(distance, bearing, False)`. -/
def LatLon.finalBearingOn (p : LatLon) (distance bearing : ℝ) : Except VincentyErr ℝ :=
  p._directFB distance bearing

/-- `LatLon.distanceTo`: `self._inverse(other, False)`. -/
def LatLon.distanceTo (p q : LatLon) : Except VincentyErr ℝ := p._inverseD q

/-- `LatLon.distanceTo3`: `self._inverse(other, True)`. -/
def LatLon.distanceTo3 (p q : LatLon) : Except VincentyErr (ℝ × ℝ × ℝ) := p._inverse3 q

/-- `LatLon.initialBearingTo`: `self._inverse(other, True)[1]`. -/
def LatLon.initialBearingTo (p q : LatLon) : Except VincentyErr ℝ :=
  (p._inverse3 q).map fun t => t.2.1

/-- `LatLon.finalBearingTo`: `self._inverse(other, True)[2]`. -/
def LatLon.finalBearingTo (p q : LatLon) : Except VincentyErr ℝ :=
  (p._inverse3 q).map fun t => t.2.2

/-- The `epsilon` property setter: `if 0 < float(eps) < 1: self._epsilon = float(eps)`,
silently ignoring out-of-range assignments. -/
def LatLon.setEpsilon (p : LatLon) (eps : ℝ) : LatLon :=
  if 0 < eps ∧ eps < 1 then { p with epsilon := eps } else p

/-- The `iterations` property setter: `if 2 < int(limit) < 200: self._iterations = int(limit)`,
silently ignoring out-of-range assignments. -/
def LatLon.setIterations (p : LatLon) (limit : ℤ) : LatLon :=
  if 2 < limit ∧ limit < 200 then { p with iterations := limit.toNat } else p

/-- `LatLon.copy`: the base-class copy (Modelled from the spec:
`_LatLonHeightDatumBase.copy` is not in the sources; it constructs a fresh
point with the same latitude, longitude, height and datum, hence with the
class-default convergence configuration), followed by the source's explicit
`p.epsilon = self.epsilon; p.iterations = self.iterations` setter assignments. -/
def LatLon.copy (p : LatLon) : LatLon :=
  (({ p with epsilon := epsilonDefault, iterations := iterationsDefault } : LatLon).setEpsilon
      p.epsilon).setIterations (p.iterations : ℤ)

/-- A sequence of assignments to the `epsilon` / `iterations` property setters. -/
inductive ConfigOp where
  | seteps (e : ℝ)
  | setits (l : ℤ)

/-- Apply a sequence of setter assignments to a point. -/
def applyConfigOps (p : LatLon) : List ConfigOp → LatLon
  | [] => p
  | .seteps e :: ops => applyConfigOps (p.setEpsilon e) ops
  | .setits l :: ops => applyConfigOps (p.setIterations l) ops

instance : Inhabited LatLon :=
  ⟨⟨0, 0, 0, ⟨"", ⟨"", 0, 0, 0, 0⟩⟩, epsilonDefault, iterationsDefault⟩⟩

/-- Object-level (heap) model of `LatLon.copy`: points live in a heap of
allocated objects addressed by index; `copy` allocates a fresh object holding
the copy and returns its address. -/
def heapCopy (w : List LatLon) (i : ℕ) : List LatLon × ℕ :=
  (w ++ [(w.getD i default).copy], w.length)

/-- Heap model of the `epsilon` setter applied to the object at address `i`. -/
def heapSetEpsilon (w : List LatLon) (i : ℕ) (e : ℝ) : List LatLon :=
  w.set i ((w.getD i default).setEpsilon e)

/-- Heap model of the `iterations` setter applied to the object at address `i`. -/
def heapSetIterations (w : List LatLon) (i : ℕ) (l : ℤ) : List LatLon :=
  w.set i ((w.getD i default).setIterations l)

/-- Heap model of `destination2`: the direct solver reads the receiver, and on
success allocates exactly one fresh object, the destination point. -/
def heapDestination2 (w : List LatLon) (i : ℕ) (distance bearing : ℝ) :
    List LatLon × Except VincentyErr (ℕ × ℝ) :=
  match (w.getD i default)._direct2 distance bearing with
  | .ok (q, r) => (w ++ [q], .ok (w.length, r))
  | .error e => (w, .error e)

/-- Heap model of `destination`: as `heapDestination2` but returning only the
address of the freshly allocated destination point. -/
def heapDestination (w : List LatLon) (i : ℕ) (distance bearing : ℝ) :
    List LatLon × Except VincentyErr ℕ :=
  match (w.getD i default)._direct2 distance bearing with
  | .ok (q, _) => (w ++ [q], .ok w.length)
  | .error e => (w, .error e)

/-- Heap model of `finalBearingOn`: reads the receiver, allocates nothing. -/
def heapFinalBearingOn (w : List LatLon) (i : ℕ) (distance bearing : ℝ) :
    List LatLon × Except VincentyErr ℝ :=
  (w, (w.getD i default)._directFB distance bearing)

/-- Heap model of `distanceTo`: reads both points, allocates nothing. -/
def heapDistanceTo (w : List LatLon) (i j : ℕ) : List LatLon × Except VincentyErr ℝ :=
  (w, (w.getD i default)._inverseD (w.getD j default))

/-- Heap model of `distanceTo3` (and of `initialBearingTo` / `finalBearingTo`,
which only project its result): reads both points, allocates nothing. -/
def heapDistanceTo3 (w : List LatLon) (i j : ℕ) : List LatLon × Except VincentyErr (ℝ × ℝ × ℝ) :=
  (w, (w.getD i default)._inverse3 (w.getD j default))

lemma setEpsilon_iterations (p : LatLon) (e : ℝ) :
    (p.setEpsilon e).iterations = p.iterations := by
  unfold LatLon.setEpsilon; split <;> rfl

lemma setEpsilon_epsilon_mem (p : LatLon) (e : ℝ) (h0 : 0 < p.epsilon) (h1 : p.epsilon < 1) :
    0 < (p.setEpsilon e).epsilon ∧ (p.setEpsilon e).epsilon < 1 := by
  unfold LatLon.setEpsilon
  split
  · next h => exact ⟨h.1, h.2⟩
  · exact ⟨h0, h1⟩

lemma setIterations_epsilon (p : LatLon) (l : ℤ) :
    (p.setIterations l).epsilon = p.epsilon := by
  unfold LatLon.setIterations; split <;> rfl

lemma setIterations_iterations_mem (p : LatLon) (l : ℤ)
    (h2 : 2 < p.iterations) (h3 : p.iterations < 200) :
    2 < (p.setIterations l).iterations ∧ (p.setIterations l).iterations < 200 := by
  unfold LatLon.setIterations
  split
  · next h =>
    have hr : ({ p with iterations := l.toNat } : LatLon).iterations = l.toNat := rfl
    rw [hr]; constructor <;> omega
  · exact ⟨h2, h3⟩

lemma configInvariant (ops : List ConfigOp) : ∀ p : LatLon,
    0 < p.epsilon → p.epsilon < 1 → 2 < p.iterations → p.iterations < 200 →
    0 < (applyConfigOps p ops).epsilon ∧ (applyConfigOps p ops).epsilon < 1 ∧
    2 < (applyConfigOps p ops).iterations ∧ (applyConfigOps p ops).iterations < 200 := by
  induction ops with
  | nil => intro p h1 h2 h3 h4; exact ⟨h1, h2, h3, h4⟩
  | cons op rest ih =>
    intro p h1 h2 h3 h4
    cases op with
    | seteps e =>
      have he := setEpsilon_epsilon_mem p e h1 h2
      have hi := setEpsilon_iterations p e
      exact ih (p.setEpsilon e) he.1 he.2 (hi ▸ h3) (hi ▸ h4)
    | setits l =>
      have hi := setIterations_iterations_mem p l h3 h4
      have he := setIterations_epsilon p l
      exact ih (p.setIterations l) (he ▸ h1) (he ▸ h2) hi.1 hi.2

/-- Claim C6: the epsilon and iterations setters validate on assignment:
an epsilon strictly inside (0,1) or an iteration limit strictly inside
(2,200) is stored, any other assignment is silently ignored leaving the
point unchanged; hence after any sequence of setter calls starting from the
defaults epsilon = 1e-12 and iterations = 50, epsilon stays in (0,1) and the
iteration limit in (2,200). -/
theorem C6_config_setters : ∀ (p : LatLon) (e : ℝ) (l : ℤ),
    ((0 < e ∧ e < 1) → (p.setEpsilon e).epsilon = e) ∧
    (¬(0 < e ∧ e < 1) → p.setEpsilon e = p) ∧
    ((2 < l ∧ l < 200) → ((p.setIterations l).iterations : ℤ) = l) ∧
    (¬(2 < l ∧ l < 200) → p.setIterations l = p) ∧
    (p.epsilon = epsilonDefault → p.iterations = iterationsDefault →
      ∀ ops : List ConfigOp,
        0 < (applyConfigOps p ops).epsilon ∧ (applyConfigOps p ops).epsilon < 1 ∧
        2 < (applyConfigOps p ops).iterations ∧ (applyConfigOps p ops).iterations < 200) := by
  intro p e l
  refine ⟨?_, ?_, ?_, ?_, ?_⟩
  · intro h; unfold LatLon.setEpsilon; rw [if_pos h]
  · intro h; unfold LatLon.setEpsilon; rw [if_neg h]
  · intro h; unfold LatLon.setIterations; rw [if_pos h]; show ((l.toNat : ℤ)) = l; omega
  · intro h; unfold LatLon.setIterations; rw [if_neg h]
  · intro h1 h2 ops
    refine configInvariant ops p ?_ ?_ ?_ ?_ <;>
      simp [h1, h2, epsilonDefault, iterationsDefault] <;> norm_num

/-- Witness for C6 at concrete inputs. -/
theorem C6_config_setters_witness :
    (((default : LatLon).setEpsilon (1/2)).epsilon = 1/2) ∧
    ((((default : LatLon).setIterations 100).iterations : ℤ) = 100) ∧
    (0 < (applyConfigOps (default : LatLon) [ConfigOp.seteps 2]).epsilon ∧
      (applyConfigOps (default : LatLon) [ConfigOp.seteps 2]).epsilon < 1) := by
  refine ⟨(C6_config_setters default (1/2) 100).1 (by norm_num),
          (C6_config_setters default (1/2) 100).2.2.1 (by norm_num), ?_⟩
  have h := (C6_config_setters default (1/2) 100).2.2.2.2 rfl rfl [ConfigOp.seteps 2]
  exact ⟨h.1, h.2.1⟩

lemma exceptMap_map {ε α β γ : Type} (e : Except ε α) (f : α → β) (g : β → γ) :
    (e.map f).map g = e.map fun x => g (f x) := by
  cases e <;> rfl

/-- Claim C7: the convenience operations are projections of the full solver
results: `destination` and `finalBearingOn` are the two components of
`destination2`, and `distanceTo`, `initialBearingTo`, `finalBearingTo` are
the three components of `distanceTo3`, with identical failures. -/
theorem C7_projections : ∀ (p q : LatLon) (distance bearing : ℝ),
    p.destination distance bearing = (p.destination2 distance bearing).map Prod.fst ∧
    p.finalBearingOn distance bearing = (p.destination2 distance bearing).map Prod.snd ∧
    p.distanceTo q = (p.distanceTo3 q).map (fun t => t.1) ∧
    p.initialBearingTo q = (p.distanceTo3 q).map (fun t => t.2.1) ∧
    p.finalBearingTo q = (p.distanceTo3 q).map (fun t => t.2.2) := by
  intro p q distance bearing
  refine ⟨rfl, ?_, ?_, rfl, rfl⟩
  · show p._directFB distance bearing = (p._direct2 distance bearing).map Prod.snd
    unfold LatLon._directFB LatLon._direct2
    rw [exceptMap_map]
  · show p._inverseD q = (p._inverse3 q).map fun t => t.1
    unfold LatLon._inverseD LatLon._inverse3
    by_cases h : p.datum.ellipsoid.name = q.datum.ellipsoid.name
    · simp only [if_pos h]
      rw [exceptMap_map]
    · simp only [if_neg h]
      rfl

lemma copy_epsilon (p : LatLon) (h0 : 0 < p.epsilon) (h1 : p.epsilon < 1) :
    p.copy.epsilon = p.epsilon := by
  unfold LatLon.copy
  rw [setIterations_epsilon]
  unfold LatLon.setEpsilon
  rw [if_pos ⟨h0, h1⟩]

lemma copy_iterations (p : LatLon) (h2 : 2 < p.iterations) (h3 : p.iterations < 200) :
    p.copy.iterations = p.iterations := by
  unfold LatLon.copy LatLon.setIterations
  rw [if_pos ⟨by exact_mod_cast h2, by exact_mod_cast h3⟩]
  show ((p.iterations : ℤ)).toNat = p.iterations
  omega

/-- Claim C8: `copy()` deep-copies the convergence configuration: the copy
reads back the original's epsilon and iterations, and afterwards assigning
either configuration attribute on the copy leaves the original unchanged and
vice versa (heap model: the copy is a fresh object at a fresh address). -/
theorem C8_copy_deep : ∀ (w : List LatLon) (i : ℕ) (e : ℝ) (l : ℤ),
    i < w.length →
    0 < (w.getD i default).epsilon → (w.getD i default).epsilon < 1 →
    2 < (w.getD i default).iterations → (w.getD i default).iterations < 200 →
    (((heapCopy w i).1.getD (heapCopy w i).2 default).epsilon = (w.getD i default).epsilon) ∧
    (((heapCopy w i).1.getD (heapCopy w i).2 default).iterations
        = (w.getD i default).iterations) ∧
    ((heapSetEpsilon (heapCopy w i).1 (heapCopy w i).2 e)[i]? = (heapCopy w i).1[i]?) ∧
    ((heapSetIterations (heapCopy w i).1 (heapCopy w i).2 l)[i]? = (heapCopy w i).1[i]?) ∧
    ((heapSetEpsilon (heapCopy w i).1 i e)[(heapCopy w i).2]?
        = (heapCopy w i).1[(heapCopy w i).2]?) ∧
    ((heapSetIterations (heapCopy w i).1 i l)[(heapCopy w i).2]?
        = (heapCopy w i).1[(heapCopy w i).2]?) := by
  intro w i e l hi h0 h1 h2 h3
  have hget : (heapCopy w i).1.getD (heapCopy w i).2 default = (w.getD i default).copy := by
    show (w ++ [(w.getD i default).copy]).getD w.length default = _
    rw [List.getD_eq_getElem?_getD, List.getElem?_append_right (le_refl w.length)]
    simp
  have hne : w.length ≠ i := fun h => absurd hi (by omega)
  refine ⟨?_, ?_, ?_, ?_, ?_, ?_⟩
  · rw [hget]; exact copy_epsilon _ h0 h1
  · rw [hget]; exact copy_iterations _ h2 h3
  · exact List.getElem?_set_ne hne
  · exact List.getElem?_set_ne hne
  · exact List.getElem?_set_ne (Ne.symm hne)
  · exact List.getElem?_set_ne (Ne.symm hne)

/-- Witness for C8 at a concrete one-point heap. -/
theorem C8_copy_deep_witness :
    (((heapCopy [default] 0).1.getD (heapCopy [default] 0).2 default).epsilon
        = (([default] : List LatLon).getD 0 default).epsilon) ∧
    ((heapSetEpsilon (heapCopy [default] 0).1 (heapCopy [default] 0).2 (1/2))[0]?
        = (heapCopy [default] 0).1[0]?) := by
  have h := C8_copy_deep [default] 0 (1/2) 100 (by norm_num)
    (by show (0:ℝ) < epsilonDefault; norm_num [epsilonDefault])
    (by show epsilonDefault < (1:ℝ); norm_num [epsilonDefault])
    (by show 2 < iterationsDefault; norm_num [iterationsDefault])
    (by show iterationsDefault < 200; norm_num [iterationsDefault])
  exact ⟨h.1, h.2.2.1⟩

/-- Claim C9: neither solver mutates its inputs: in the heap model, every
direct or inverse solver call leaves every previously allocated object (in
particular the receiver and the other point, with all their attributes)
unchanged, whether it returns a result or fails, and the direct solver
allocates its destination at a fresh address. -/
theorem C9_solvers_pure : ∀ (w : List LatLon) (i j : ℕ) (distance bearing : ℝ),
    (∀ m, m < w.length → (heapDestination2 w i distance bearing).1[m]? = w[m]?) ∧
    (∀ n r, (heapDestination2 w i distance bearing).2 = .ok (n, r) →
      n = w.length ∧ w[n]? = none) ∧
    (∀ m, m < w.length → (heapDestination w i distance bearing).1[m]? = w[m]?) ∧
    (∀ n, (heapDestination w i distance bearing).2 = .ok n → n = w.length ∧ w[n]? = none) ∧
    ((heapFinalBearingOn w i distance bearing).1 = w) ∧
    ((heapDistanceTo w i j).1 = w) ∧
    ((heapDistanceTo3 w i j).1 = w) := by
  intro w i j distance bearing
  refine ⟨?_, ?_, ?_, ?_, rfl, rfl, rfl⟩
  · intro m hm
    unfold heapDestination2
    cases hd : (w.getD i default)._direct2 distance bearing with
    | ok x => exact List.getElem?_append_left hm
    | error e => rfl
  · intro n r
    unfold heapDestination2
    cases hd : (w.getD i default)._direct2 distance bearing with
    | ok x =>
      intro hok
      have : n = w.length := by
        have := congrArg (fun z => match z with | Except.ok (a, _) => a | _ => n) hok
        simpa using this.symm
      refine ⟨this, ?_⟩
      rw [this]
      exact List.getElem?_eq_none (le_refl w.length)
    | error e => intro hok; exact absurd hok (by simp)
  · intro m hm
    unfold heapDestination
    cases hd : (w.getD i default)._direct2 distance bearing with
    | ok x => exact List.getElem?_append_left hm
    | error e => rfl
  · intro n
    unfold heapDestination
    cases hd : (w.getD i default)._direct2 distance bearing with
    | ok x =>
      intro hok
      have hn : n = w.length := by
        have := congrArg (fun z => match z with | Except.ok a => a | _ => n) hok
        simpa using this.symm
      refine ⟨hn, ?_⟩
      rw [hn]
      exact List.getElem?_eq_none (le_refl w.length)
    | error e => intro hok; exact absurd hok (by simp)

/-- Witness for C9 at a concrete one-point heap. -/
theorem C9_solvers_pure_witness :
    ((heapDestination2 [default] 0 5 7).1[0]? = ([default] : List LatLon)[0]?) ∧
    ((heapDistanceTo [default] 0 0).1 = [default]) := by
  exact ⟨(C9_solvers_pure [default] 0 0 5 7).1 0 (by norm_num),
         (C9_solvers_pure [default] 0 0 5 7).2.2.2.2.2.1⟩

/-- A spherical datum (flattening 0) used as a concrete instance. -/
def sphereD : Datum := ⟨"Sphere", ⟨"Sphere", 1, 1, 0, 0⟩⟩

/-- The WGS-84 datum with its registry parameters, used as a concrete instance. -/
def wgs84D : Datum :=
  ⟨"WGS84", ⟨"WGS84", 6378137, 6356752.3142, 1 / 298.257223563, 0.00673949674227643⟩⟩

/-- A concrete WGS-84 point with the default convergence configuration. -/
def pW : LatLon := ⟨41.49008, -71.312796, 0, wgs84D, epsilonDefault, iterationsDefault⟩

/-- A concrete point on a different ellipsoid than `pW`. -/
def qS : LatLon := ⟨41.499498, -81.695391, 0, sphereD, epsilonDefault, iterationsDefault⟩

/-- Claim C3: the inverse solve of a point with itself always fails with the
coincidence error naming both points, never returning a numeric result, for
every epsilon and every iteration limit that lets the loop run at all. -/
theorem C3_coincident_self : ∀ p : LatLon, 1 ≤ p.iterations →
    p.distanceTo p = .error (.coincident p p) ∧
    p.distanceTo3 p = .error (.coincident p p) := by
  intro p hit
  obtain ⟨m, hm⟩ : ∃ m, p.iterations = m + 1 := ⟨p.iterations - 1, by omega⟩
  have hdl : (invCtx p p p.datum.ellipsoid).dl = 0 := by
    simp [invCtx, radians]
  have hss : ssOf (invCtx p p p.datum.ellipsoid) 0 < EPS := by
    have h0 : ssOf (invCtx p p p.datum.ellipsoid) 0 = 0 := by
      simp [ssOf, invCtx, hypot, mul_comm]
    rw [h0]; norm_num [EPS]
  have hloop : inverseLoop p p (invCtx p p p.datum.ellipsoid) p.epsilon p.iterations
      (invCtx p p p.datum.ellipsoid).dl = .error (.coincident p p) := by
    rw [hm, hdl]
    show (if ssOf (invCtx p p p.datum.ellipsoid) 0 < EPS then _ else _) = _
    rw [if_pos hss]
  constructor
  · show p._inverseD p = _
    unfold LatLon._inverseD
    rw [if_pos rfl]
    simp only [hloop]
    rfl
  · show p._inverse3 p = _
    unfold LatLon._inverse3
    rw [if_pos rfl]
    simp only [hloop]
    rfl

/-- Witness for C3 at a concrete point. -/
theorem C3_coincident_self_witness :
    pW.distanceTo pW = .error (.coincident pW pW) :=
  (C3_coincident_self pW (by norm_num [pW, iterationsDefault])).1

/-- Claim C2: the three failure modes are distinct, named failures: an
ellipsoid mismatch fails with the mismatch error before any iteration (even
with zero loop fuel) and never produces a numeric result; near-zero angular
separation inside the inverse loop fails with the coincidence error;
exhausted iteration fuel fails with the no-convergence error in either
solver; and the three failures are pairwise distinguishable. -/
theorem C2_failure_modes : ∀ p q : LatLon,
    (p.datum.ellipsoid.name ≠ q.datum.ellipsoid.name →
      p.distanceTo3 q = .error (.mismatch p.datum.ellipsoid.name q.datum.ellipsoid.name) ∧
      p.distanceTo q = .error (.mismatch p.datum.ellipsoid.name q.datum.ellipsoid.name) ∧
      (∀ r, p.distanceTo3 q ≠ .ok r) ∧
      ({ p with iterations := 0 } : LatLon).distanceTo3 q
        = .error (.mismatch p.datum.ellipsoid.name q.datum.ellipsoid.name)) ∧
    (∀ (ll : ℝ) (fuel : ℕ), ssOf (invCtx p q p.datum.ellipsoid) ll < EPS →
      inverseLoop p q (invCtx p q p.datum.ellipsoid) p.epsilon (fuel + 1) ll
        = .error (.coincident p q)) ∧
    (∀ (k : InvCtx) (eps ll : ℝ),
      inverseLoop p q k eps 0 ll = .error (.noConvergence p (some q))) ∧
    (∀ (eps d B s12 s : ℝ), directLoop p eps d B s12 0 s = .error (.noConvergence p none)) ∧
    (∀ (n1 n2 : String) (pa qa pb : LatLon) (ob : Option LatLon),
      VincentyErr.mismatch n1 n2 ≠ .coincident pa qa ∧
      VincentyErr.mismatch n1 n2 ≠ .noConvergence pb ob ∧
      VincentyErr.coincident pa qa ≠ .noConvergence pb ob) := by
  intro p q
  refine ⟨?_, ?_, ?_, ?_, ?_⟩
  · intro h
    have h3 : p.distanceTo3 q
        = .error (.mismatch p.datum.ellipsoid.name q.datum.ellipsoid.name) := by
      show p._inverse3 q = _
      unfold LatLon._inverse3
      rw [if_neg h]
    have hD : p.distanceTo q
        = .error (.mismatch p.datum.ellipsoid.name q.datum.ellipsoid.name) := by
      show p._inverseD q = _
      unfold LatLon._inverseD
      rw [if_neg h]
    refine ⟨h3, hD, ?_, ?_⟩
    · intro r; rw [h3]; simp
    · show ({ p with iterations := 0 } : LatLon)._inverse3 q = _
      unfold LatLon._inverse3
      rw [if_neg h]
  · intro ll fuel h
    show (if ssOf (invCtx p q p.datum.ellipsoid) ll < EPS then _ else _) = _
    rw [if_pos h]
  · intro k eps ll; rfl
  · intro eps d B s12 s; rfl
  · intro n1 n2 pa qa pb ob
    refine ⟨?_, ?_, ?_⟩ <;> intro h <;> exact VincentyErr.noConfusion h

/-- Witness for C2 at two concrete points on different ellipsoids. -/
theorem C2_failure_modes_witness :
    pW.distanceTo3 qS = .error (.mismatch pW.datum.ellipsoid.name qS.datum.ellipsoid.name) :=
  ((C2_failure_modes pW qS).1 (by decide)).1

/-- The direct loop's stop condition at iterate `n`: the sigma change of
iteration `n+1` is below epsilon. -/
def dStops (eps d B s12 : ℝ) (n : ℕ) : Prop :=
  |dUpd d B s12 (dSeq d B s12 n) - dSeq d B s12 n| < eps

/-- The inverse loop's coincidence condition at iterate `n`:
`sin sigma < EPS`. -/
def iCoin (k : InvCtx) (n : ℕ) : Prop := ssOf k (iSeq k n) < EPS

/-- The inverse loop's stop condition at iterate `n`: the lambda change of
iteration `n+1` is below epsilon. -/
def iStops (k : InvCtx) (eps : ℝ) (n : ℕ) : Prop :=
  |iUpd k (iSeq k n) - iSeq k n| < eps

lemma directLoop_shift (p : LatLon) (eps d B s12 : ℝ) :
    ∀ (fuel j : ℕ),
      ((∀ m, j ≤ m → m < j + fuel → ¬ dStops eps d B s12 m) →
        directLoop p eps d B s12 fuel (dSeq d B s12 j) = .error (.noConvergence p none)) ∧
      (∀ n, j ≤ n → n < j + fuel → (∀ m, j ≤ m → m < n → ¬ dStops eps d B s12 m) →
        dStops eps d B s12 n →
        directLoop p eps d B s12 fuel (dSeq d B s12 j)
          = .ok ⟨Real.cos (dSeq d B s12 n), Real.sin (dSeq d B s12 n),
                 Real.cos (s12 + dSeq d B s12 n), dSeq d B s12 (n + 1)⟩) := by
  intro fuel
  induction fuel with
  | zero =>
    intro j
    exact ⟨fun _ => rfl, fun n hjn hn => absurd hn (by omega)⟩
  | succ f ih =>
    intro j
    have hstep : dUpd d B s12 (dSeq d B s12 j) = dSeq d B s12 (j + 1) := rfl
    constructor
    · intro hall
      show (if |dUpd d B s12 (dSeq d B s12 j) - dSeq d B s12 j| < eps then _ else _) = _
      rw [if_neg (by simpa [dStops] using hall j le_rfl (by omega))]
      rw [hstep]
      exact (ih (j + 1)).1 (fun m h1 h2 => hall m (by omega) (by omega))
    · intro n hjn hn hprev hstop
      show (if |dUpd d B s12 (dSeq d B s12 j) - dSeq d B s12 j| < eps then _ else _) = _
      by_cases hj : n = j
      · subst hj
        rw [if_pos (by simpa [dStops] using hstop), hstep]
      · rw [if_neg (by simpa [dStops] using hprev j le_rfl (by omega))]
        rw [hstep]
        exact (ih (j + 1)).2 n (by omega) (by omega) (fun m h1 h2 => hprev m (by omega) h2) hstop

lemma inverseLoop_shift (p q : LatLon) (k : InvCtx) (eps : ℝ) :
    ∀ (fuel j : ℕ),
      ((∀ m, j ≤ m → m < j + fuel → ¬ iCoin k m ∧ ¬ iStops k eps m) →
        inverseLoop p q k eps fuel (iSeq k j) = .error (.noConvergence p (some q))) ∧
      (∀ n, j ≤ n → n < j + fuel → (∀ m, j ≤ m → m < n → ¬ iCoin k m ∧ ¬ iStops k eps m) →
        iCoin k n → inverseLoop p q k eps fuel (iSeq k j) = .error (.coincident p q)) ∧
      (∀ n, j ≤ n → n < j + fuel → (∀ m, j ≤ m → m < n → ¬ iCoin k m ∧ ¬ iStops k eps m) →
        ¬ iCoin k n → iStops k eps n →
        inverseLoop p q k eps fuel (iSeq k j) = .ok (iExitAt k (iSeq k n))) := by
  intro fuel
  induction fuel with
  | zero =>
    intro j
    exact ⟨fun _ => rfl, fun n hjn hn => absurd hn (by omega),
           fun n hjn hn => absurd hn (by omega)⟩
  | succ f ih =>
    intro j
    have hstep : iUpd k (iSeq k j) = iSeq k (j + 1) := rfl
    refine ⟨?_, ?_, ?_⟩
    · intro hall
      show (if ssOf k (iSeq k j) < EPS then _
            else if |iUpd k (iSeq k j) - iSeq k j| < eps then _ else _) = _
      rw [if_neg (by simpa [iCoin] using (hall j le_rfl (by omega)).1),
          if_neg (by simpa [iStops] using (hall j le_rfl (by omega)).2)]
      rw [hstep]
      exact (ih (j + 1)).1 (fun m h1 h2 => hall m (by omega) (by omega))
    · intro n hjn hn hprev hcoin
      show (if ssOf k (iSeq k j) < EPS then _
            else if |iUpd k (iSeq k j) - iSeq k j| < eps then _ else _) = _
      by_cases hj : n = j
      · subst hj
        rw [if_pos (by simpa [iCoin] using hcoin)]
      · rw [if_neg (by simpa [iCoin] using (hprev j le_rfl (by omega)).1),
            if_neg (by simpa [iStops] using (hprev j le_rfl (by omega)).2)]
        rw [hstep]
        exact (ih (j + 1)).2.1 n (by omega) (by omega)
          (fun m h1 h2 => hprev m (by omega) h2) hcoin
    · intro n hjn hn hprev hcoin hstop
      show (if ssOf k (iSeq k j) < EPS then _
            else if |iUpd k (iSeq k j) - iSeq k j| < eps then _ else _) = _
      by_cases hj : n = j
      · subst hj
        rw [if_neg (by simpa [iCoin] using hcoin), if_pos (by simpa [iStops] using hstop)]
      · rw [if_neg (by simpa [iCoin] using (hprev j le_rfl (by omega)).1),
            if_neg (by simpa [iStops] using (hprev j le_rfl (by omega)).2)]
        rw [hstep]
        exact (ih (j + 1)).2.2 n (by omega) (by omega)
          (fun m h1 h2 => hprev m (by omega) h2) hcoin hstop

/-- Claim C5: each convergence loop is bounded by its fuel (the iteration
limit): it returns the result of the first iteration whose change falls below
epsilon (or, for the inverse loop, the coincidence failure at the first
iterate whose sin-sigma is below EPS), and if no iterate among the first
`fuel` ones exits, it fails with the no-convergence error. -/
theorem C5_bounded_loops : ∀ (p q : LatLon) (k : InvCtx) (eps d B s12 : ℝ) (fuel : ℕ),
    ((∀ m, m < fuel → ¬ dStops eps d B s12 m) →
      directLoop p eps d B s12 fuel d = .error (.noConvergence p none)) ∧
    (∀ n, n < fuel → (∀ m, m < n → ¬ dStops eps d B s12 m) → dStops eps d B s12 n →
      directLoop p eps d B s12 fuel d
        = .ok ⟨Real.cos (dSeq d B s12 n), Real.sin (dSeq d B s12 n),
               Real.cos (s12 + dSeq d B s12 n), dSeq d B s12 (n + 1)⟩) ∧
    ((∀ n, n < fuel → ¬ iCoin k n ∧ ¬ iStops k eps n) →
      inverseLoop p q k eps fuel k.dl = .error (.noConvergence p (some q))) ∧
    (∀ n, n < fuel → (∀ m, m < n → ¬ iCoin k m ∧ ¬ iStops k eps m) → iCoin k n →
      inverseLoop p q k eps fuel k.dl = .error (.coincident p q)) ∧
    (∀ n, n < fuel → (∀ m, m < n → ¬ iCoin k m ∧ ¬ iStops k eps m) → ¬ iCoin k n →
      iStops k eps n → inverseLoop p q k eps fuel k.dl = .ok (iExitAt k (iSeq k n))) := by
  intro p q k eps d B s12 fuel
  have hd0 : d = dSeq d B s12 0 := rfl
  have hi0 : k.dl = iSeq k 0 := rfl
  refine ⟨?_, ?_, ?_, ?_, ?_⟩
  · intro hall
    rw [hd0]
    exact (directLoop_shift p eps d B s12 fuel 0).1 (fun m h1 h2 => hall m (by omega))
  · intro n hn hprev hstop
    rw [hd0]
    exact (directLoop_shift p eps d B s12 fuel 0).2 n (by omega) (by omega)
      (fun m h1 h2 => hprev m h2) hstop
  · intro hall
    rw [hi0]
    exact (inverseLoop_shift p q k eps fuel 0).1 (fun m h1 h2 => hall m (by omega))
  · intro n hn hprev hcoin
    rw [hi0]
    exact (inverseLoop_shift p q k eps fuel 0).2.1 n (by omega) (by omega)
      (fun m h1 h2 => hprev m h2) hcoin
  · intro n hn hprev hcoin hstop
    rw [hi0]
    exact (inverseLoop_shift p q k eps fuel 0).2.2 n (by omega) (by omega)
      (fun m h1 h2 => hprev m h2) hcoin hstop

/-- Witness for C5: a first-iteration convergence of the direct loop (B = 0)
and a first-iteration coincidence failure of the inverse loop. -/
theorem C5_bounded_loops_witness :
    directLoop pW 1 5 0 3 1 5
      = .ok ⟨Real.cos (dSeq 5 0 3 0), Real.sin (dSeq 5 0 3 0),
             Real.cos (3 + dSeq 5 0 3 0), dSeq 5 0 3 1⟩ ∧
    inverseLoop pW qS ⟨0, 0, 1, 0, 1, 0⟩ 1 1 (InvCtx.dl ⟨0, 0, 1, 0, 1, 0⟩)
      = .error (.coincident pW qS) := by
  constructor
  · exact (C5_bounded_loops pW qS ⟨0, 0, 1, 0, 1, 0⟩ 1 5 0 3 1).2.1 0 (by norm_num)
      (by omega)
      (by show |dUpd 5 0 3 (dSeq 5 0 3 0) - dSeq 5 0 3 0| < 1
          simp [dUpd, dSeq, _ds])
  · exact (C5_bounded_loops pW qS ⟨0, 0, 1, 0, 1, 0⟩ 1 5 0 3 1).2.2.2.1 0 (by norm_num)
      (by omega)
      (by show ssOf ⟨0, 0, 1, 0, 1, 0⟩ (iSeq ⟨0, 0, 1, 0, 1, 0⟩ 0) < EPS
          simp [ssOf, iSeq, hypot, EPS]
          norm_num)

lemma hypot_nonneg (x y : ℝ) : 0 ≤ hypot x y := Real.sqrt_nonneg _

lemma hypot_sq (x y : ℝ) : hypot x y ^ 2 = x ^ 2 + y ^ 2 :=
  Real.sq_sqrt (by positivity)

lemma one_le_hypot_one (t : ℝ) : 1 ≤ hypot 1 t := by
  have h : Real.sqrt 1 ≤ Real.sqrt ((1:ℝ) ^ 2 + t ^ 2) := Real.sqrt_le_sqrt (by nlinarith)
  simpa [hypot] using h

lemma r3_c_pos (a f : ℝ) : 0 < (_r3 a f).1 := by
  unfold _r3
  have h := one_le_hypot_one ((1 - f) * Real.tan (radians a))
  exact div_pos one_pos (by linarith)

lemma r3_unit (a f : ℝ) : (_r3 a f).1 ^ 2 + (_r3 a f).2.1 ^ 2 = 1 := by
  unfold _r3
  set t := (1 - f) * Real.tan (radians a) with ht
  have h1 : 1 ≤ hypot 1 t := one_le_hypot_one t
  have h2 : hypot 1 t ^ 2 = 1 + t ^ 2 := by rw [hypot_sq]; ring
  have hne : hypot 1 t ≠ 0 := by linarith
  field_simp
  linarith [h2]

lemma r3_s_eq (a f : ℝ) : (_r3 a f).2.1 = (_r3 a f).2.2 * (_r3 a f).1 := rfl

lemma wrap_base_mem (d : ℝ) :
    0 ≤ d - 360 * (⌊d / 360⌋ : ℤ) ∧ d - 360 * (⌊d / 360⌋ : ℤ) < 360 := by
  have h1 := Int.fract_nonneg (d / 360)
  have h2 := Int.fract_lt_one (d / 360)
  unfold Int.fract at h1 h2
  constructor <;> nlinarith

lemma degrees360_mem (r : ℝ) : 0 ≤ degrees360 r ∧ degrees360 r < 360 := by
  have h := wrap_base_mem (degrees r)
  simp only [degrees360, wrapDeg]
  split_ifs with hgt
  · constructor <;> linarith [h.1, h.2]
  · exact h

lemma degrees180_mem (r : ℝ) : -180 < degrees180 r ∧ degrees180 r ≤ 180 := by
  have h := wrap_base_mem (degrees r)
  simp only [degrees180, wrapDeg]
  split_ifs with hgt
  · constructor <;> linarith [h.1, h.2]
  · constructor <;> linarith [h.1, h.2]

lemma wrapDeg_id (v w : ℝ) (hw0 : 0 ≤ w) (hw1 : w < 360) (h1 : w - 360 < v) (h2 : v ≤ w) :
    wrapDeg v w = v := by
  simp only [wrapDeg]
  by_cases hv : 0 ≤ v
  · have hf : ⌊v / 360⌋ = 0 := by
      rw [Int.floor_eq_zero_iff]
      constructor
      · exact div_nonneg hv (by norm_num)
      · show v / 360 < 1
        rw [div_lt_one (by norm_num : (0:ℝ) < 360)]
        linarith
    rw [hf]
    push_cast
    rw [mul_zero, sub_zero, if_neg (not_lt.mpr h2)]
  · push_neg at hv
    have hf : ⌊v / 360⌋ = -1 := by
      rw [Int.floor_eq_iff]
      constructor
      · show ((-1 : ℤ) : ℝ) ≤ v / 360
        push_cast
        rw [le_div_iff (by norm_num : (0:ℝ) < 360)]
        linarith
      · show v / 360 < (-1 : ℤ) + 1
        push_cast
        rw [neg_add_cancel]
        exact div_neg_of_neg_of_pos hv (by norm_num)
    rw [hf]
    push_cast
    rw [if_pos (by linarith)]
    ring

lemma degrees_radians (x : ℝ) : degrees (radians x) = x := by
  unfold degrees radians
  field_simp

lemma degrees90_radians_id (x : ℝ) (h1 : -90 ≤ x) (h2 : x ≤ 90) :
    degrees90 (radians x) = x := by
  unfold degrees90
  rw [degrees_radians]
  exact wrapDeg_id x 90 (by norm_num) (by norm_num) (by linarith) h2

lemma degrees180_radians_id (x : ℝ) (h1 : -180 < x) (h2 : x ≤ 180) :
    degrees180 (radians x) = x := by
  unfold degrees180
  rw [degrees_radians]
  exact wrapDeg_id x 180 (by norm_num) (by norm_num) (by linarith) h2

lemma degrees_mem_of_half_pi (r : ℝ) (h1 : -(π/2) ≤ r) (h2 : r ≤ π/2) :
    -90 ≤ degrees r ∧ degrees r ≤ 90 := by
  have hp := Real.pi_pos
  unfold degrees
  constructor
  · rw [le_div_iff hp]
    nlinarith
  · rw [div_le_iff hp]
    nlinarith

lemma degrees90_mem (r : ℝ) (h1 : -(π/2) ≤ r) (h2 : r ≤ π/2) :
    -90 ≤ degrees90 r ∧ degrees90 r ≤ 90 := by
  have h := degrees_mem_of_half_pi r h1 h2
  unfold degrees90
  rw [wrapDeg_id (degrees r) 90 (by norm_num) (by norm_num) (by linarith [h.1]) h.2]
  exact h

lemma atan2_of_x_pos (y x : ℝ) (hx : 0 < x) : atan2 y x = Real.arctan (y / x) := by
  unfold atan2
  rw [if_pos hx]

lemma atan2_zero_of_x_pos (x : ℝ) (hx : 0 < x) : atan2 0 x = 0 := by
  rw [atan2_of_x_pos 0 x hx, zero_div, Real.arctan_zero]

lemma atan2_mem_of_x_nonneg (y x : ℝ) (hx : 0 ≤ x) :
    -(π/2) ≤ atan2 y x ∧ atan2 y x ≤ π/2 := by
  have hp := Real.pi_pos
  unfold atan2
  split_ifs with h1 h2 h3 h4 h5
  · exact ⟨(Real.neg_pi_div_two_lt_arctan _).le, (Real.arctan_lt_pi_div_two _).le⟩
  · exact absurd h2 (not_lt.mpr hx)
  · exact absurd h2 (not_lt.mpr hx)
  · constructor <;> linarith
  · constructor <;> linarith
  · constructor <;> linarith

lemma atan2_mem_of_y_nonneg (y x : ℝ) (hy : 0 ≤ y) :
    0 ≤ atan2 y x ∧ atan2 y x ≤ π := by
  have hp := Real.pi_pos
  unfold atan2
  rcases lt_trichotomy x 0 with hx | hx | hx
  · rw [if_neg (by linarith), if_pos hx, if_pos hy]
    have hyx : y / x ≤ 0 := div_nonpos_of_nonneg_of_nonpos hy hx.le
    have ha : Real.arctan (y / x) ≤ Real.arctan 0 := Real.arctan_strictMono.monotone hyx
    rw [Real.arctan_zero] at ha
    have hb := Real.neg_pi_div_two_lt_arctan (y / x)
    constructor <;> linarith
  · subst hx
    rw [if_neg (lt_irrefl 0), if_neg (lt_irrefl 0)]
    rcases eq_or_lt_of_le hy with hy0 | hy0
    · rw [if_neg (by linarith), if_neg (by linarith)]
      constructor <;> linarith
    · rw [if_pos hy0]
      constructor <;> linarith
  · rw [if_pos hx]
    have ha : Real.arctan 0 ≤ Real.arctan (y / x) :=
      Real.arctan_strictMono.monotone (div_nonneg hy hx.le)
    rw [Real.arctan_zero] at ha
    have hb := Real.arctan_lt_pi_div_two (y / x)
    constructor <;> linarith

lemma radians_mem_half_pi (x : ℝ) (h1 : -90 < x) (h2 : x < 90) :
    -(π/2) < radians x ∧ radians x < π/2 := by
  have hp := Real.pi_pos
  unfold radians
  constructor
  · nlinarith [mul_pos (by linarith : (0:ℝ) < x + 90) hp]
  · nlinarith [mul_pos (by linarith : (0:ℝ) < 90 - x) hp]

lemma dUpd_zero (B s12 : ℝ) : dUpd 0 B s12 0 = 0 := by
  simp [dUpd, _ds]

lemma hypot_scaled (c si ci : ℝ) (hc : 0 ≤ c) (huni : si ^ 2 + ci ^ 2 = 1) :
    hypot (c * si) (-(c * ci)) = c := by
  unfold hypot
  have h : (c * si) ^ 2 + (-(c * ci)) ^ 2 = c ^ 2 := by ring_nf; nlinarith [huni]
  rw [h]
  exact Real.sqrt_sq hc

/-- Claim C10: in exact arithmetic, the direct solver with distance 0
converges on its very first iteration for every positive epsilon (so it can
never fail with the no-convergence error), and `destination 0 bearing`
returns a point carrying exactly the start's latitude, longitude, height and
datum, for every start strictly inside the latitude/longitude ranges and
every bearing. -/
theorem C10_zero_distance : ∀ (p : LatLon) (bearing : ℝ),
    -90 < p.lat → p.lat < 90 → -180 < p.lon → p.lon < 180 →
    0 < p.epsilon → 1 ≤ p.iterations → p.datum.ellipsoid.f < 1 →
    (∀ (eps B s12 : ℝ) (fuel : ℕ), 0 < eps → 1 ≤ fuel →
      directLoop p eps 0 B s12 fuel 0 = .ok ⟨1, 0, Real.cos s12, 0⟩) ∧
    (∃ q : LatLon, p.destination 0 bearing = .ok q ∧ q.lat = p.lat ∧ q.lon = p.lon ∧
      q.height = p.height ∧ q.datum = p.datum) := by
  intro p bearing hlat1 hlat2 hlon1 hlon2 heps hiter hf
  have hloop : ∀ (eps B s12 : ℝ) (fuel : ℕ), 0 < eps → 1 ≤ fuel →
      directLoop p eps 0 B s12 fuel 0 = .ok ⟨1, 0, Real.cos s12, 0⟩ := by
    intro eps B s12 fuel he hfu
    obtain ⟨m, rfl⟩ : ∃ m, fuel = m + 1 := ⟨fuel - 1, by omega⟩
    simp only [directLoop]
    rw [dUpd_zero]
    rw [if_pos (by simpa using he)]
    norm_num
  refine ⟨hloop, ?_⟩
  simp only [LatLon.destination, LatLon._direct2, zero_div]
  rw [hloop p.epsilon _ _ p.iterations heps hiter]
  simp only [Except.map]
  refine ⟨_, rfl, ?_, ?_, rfl, rfl⟩
  · show degrees90 (atan2 ((_r3 p.lat p.datum.ellipsoid.f).2.1 * (1 : ℝ) +
        (_r3 p.lat p.datum.ellipsoid.f).1 * 0 * Real.cos (radians bearing))
        ((1 - p.datum.ellipsoid.f) *
          hypot ((_r3 p.lat p.datum.ellipsoid.f).1 * Real.sin (radians bearing))
            ((_r3 p.lat p.datum.ellipsoid.f).2.1 * 0 -
             (_r3 p.lat p.datum.ellipsoid.f).1 * 1 * Real.cos (radians bearing)))) = p.lat
    set F := p.datum.ellipsoid.f with hF
    set c1 := (_r3 p.lat F).1 with hc1
    have hc1pos : 0 < c1 := r3_c_pos p.lat F
    have hyarg : (_r3 p.lat F).2.1 * (1 : ℝ) + c1 * 0 * Real.cos (radians bearing)
        = (_r3 p.lat F).2.2 * c1 := by
      rw [r3_s_eq]; ring
    have hxhyp : hypot (c1 * Real.sin (radians bearing))
        ((_r3 p.lat F).2.1 * 0 - c1 * 1 * Real.cos (radians bearing)) = c1 := by
      have h1 : (_r3 p.lat F).2.1 * 0 - c1 * 1 * Real.cos (radians bearing)
          = -(c1 * Real.cos (radians bearing)) := by ring
      rw [h1]
      exact hypot_scaled c1 _ _ hc1pos.le (Real.sin_sq_add_cos_sq (radians bearing))
    rw [hyarg, hxhyp]
    have hx : 0 < (1 - F) * c1 := mul_pos (by linarith) hc1pos
    rw [atan2_of_x_pos _ _ hx]
    have ht : (_r3 p.lat F).2.2 = (1 - F) * Real.tan (radians p.lat) := rfl
    have harg : (_r3 p.lat F).2.2 * c1 / ((1 - F) * c1) = Real.tan (radians p.lat) := by
      rw [ht]
      field_simp
      ring
    rw [harg]
    have hrange := radians_mem_half_pi p.lat hlat1 hlat2
    rw [Real.arctan_tan hrange.1 hrange.2]
    exact degrees90_radians_id p.lat (by linarith) (by linarith)
  · show degrees180 (atan2 ((0 : ℝ) * Real.sin (radians bearing))
        ((_r3 p.lat p.datum.ellipsoid.f).1 * 1 -
         (_r3 p.lat p.datum.ellipsoid.f).2.1 * 0 * Real.cos (radians bearing)) -
        _dl p.datum.ellipsoid.f _ _ 0 1 0 _ + radians p.lon) = p.lon
    set F := p.datum.ellipsoid.f with hF
    set c1 := (_r3 p.lat F).1 with hc1
    have hc1pos : 0 < c1 := r3_c_pos p.lat F
    have hxarg : c1 * 1 - (_r3 p.lat F).2.1 * 0 * Real.cos (radians bearing) = c1 := by ring
    have hyarg : (0 : ℝ) * Real.sin (radians bearing) = 0 := by ring
    rw [hxarg, hyarg, atan2_zero_of_x_pos c1 hc1pos]
    have hdl : ∀ c2a sa c2sm : ℝ, _dl F c2a sa 0 1 0 c2sm = 0 := by
      intro c2a sa c2sm
      simp [_dl]
    rw [hdl]
    rw [zero_sub, neg_zero, zero_add]
    exact degrees180_radians_id p.lon (by linarith) (by linarith)

/-- Witness for C10 at a concrete start point and bearing. -/
theorem C10_zero_distance_witness :
    ∃ q : LatLon, (⟨10, 20, 3, wgs84D, epsilonDefault, iterationsDefault⟩ : LatLon).destination
        0 77 = .ok q ∧ q.lat = 10 ∧ q.lon = 20 ∧ q.height = 3 ∧ q.datum = wgs84D := by
  have h := (C10_zero_distance ⟨10, 20, 3, wgs84D, epsilonDefault, iterationsDefault⟩ 77
    (by norm_num) (by norm_num) (by norm_num) (by norm_num)
    (by norm_num [epsilonDefault]) (by norm_num [iterationsDefault])
    (by norm_num [wgs84D])).2
  exact h

/-- Transposition of the inverse failure payloads under swapping the two
points: the mismatch names, the coincident points and the no-convergence
points swap. -/
def transposeErr : VincentyErr → VincentyErr
  | .mismatch a b => .mismatch b a
  | .coincident x y => .coincident y x
  | .noConvergence x (some y) => .noConvergence y (some x)
  | .noConvergence x none => .noConvergence x none

/-- The inverse context with the roles of the two points exchanged. -/
def InvCtx.swap (k : InvCtx) : InvCtx := ⟨k.f, k.dl, k.c2, k.s2, k.c1, k.s1⟩

lemma ssOf_swap (k : InvCtx) (h1 : k.c1 ^ 2 + k.s1 ^ 2 = 1) (h2 : k.c2 ^ 2 + k.s2 ^ 2 = 1)
    (ll : ℝ) : ssOf k.swap ll = ssOf k ll := by
  unfold ssOf InvCtx.swap hypot
  have hc := Real.sin_sq_add_cos_sq ll
  congr 1
  linear_combination (Real.sin ll ^ 2 * k.c2 ^ 2) * h1 - (Real.sin ll ^ 2 * k.c1 ^ 2) * h2 +
    (k.c1 ^ 2 * k.s2 ^ 2 - k.s1 ^ 2 * k.c2 ^ 2) * hc

lemma csOf_swap (k : InvCtx) (ll : ℝ) : csOf k.swap ll = csOf k ll := by
  unfold csOf InvCtx.swap
  ring

lemma saOf_swap (k : InvCtx) (h1 : k.c1 ^ 2 + k.s1 ^ 2 = 1) (h2 : k.c2 ^ 2 + k.s2 ^ 2 = 1)
    (ll : ℝ) : saOf k.swap ll = saOf k ll := by
  unfold saOf
  rw [ssOf_swap k h1 h2 ll]
  show k.swap.c1 * k.swap.c2 * Real.sin ll / ssOf k ll = _
  unfold InvCtx.swap
  ring_nf

lemma c2aOf_swap (k : InvCtx) (h1 : k.c1 ^ 2 + k.s1 ^ 2 = 1) (h2 : k.c2 ^ 2 + k.s2 ^ 2 = 1)
    (ll : ℝ) : c2aOf k.swap ll = c2aOf k ll := by
  unfold c2aOf
  rw [saOf_swap k h1 h2 ll]

lemma c2smOf_swap (k : InvCtx) (h1 : k.c1 ^ 2 + k.s1 ^ 2 = 1) (h2 : k.c2 ^ 2 + k.s2 ^ 2 = 1)
    (ll : ℝ) : c2smOf k.swap ll = c2smOf k ll := by
  unfold c2smOf
  rw [csOf_swap, c2aOf_swap k h1 h2 ll]
  show csOf k ll - 2 * k.swap.s1 * k.swap.s2 / c2aOf k ll = _
  unfold InvCtx.swap
  ring_nf

lemma sOf_swap (k : InvCtx) (h1 : k.c1 ^ 2 + k.s1 ^ 2 = 1) (h2 : k.c2 ^ 2 + k.s2 ^ 2 = 1)
    (ll : ℝ) : sOf k.swap ll = sOf k ll := by
  unfold sOf
  rw [ssOf_swap k h1 h2 ll, csOf_swap]

lemma iUpd_swap (k : InvCtx) (h1 : k.c1 ^ 2 + k.s1 ^ 2 = 1) (h2 : k.c2 ^ 2 + k.s2 ^ 2 = 1)
    (ll : ℝ) : iUpd k.swap ll = iUpd k ll := by
  unfold iUpd
  rw [c2aOf_swap k h1 h2 ll, saOf_swap k h1 h2 ll, sOf_swap k h1 h2 ll, csOf_swap,
      ssOf_swap k h1 h2 ll, c2smOf_swap k h1 h2 ll]
  rfl

lemma iExitAt_swap (k : InvCtx) (h1 : k.c1 ^ 2 + k.s1 ^ 2 = 1) (h2 : k.c2 ^ 2 + k.s2 ^ 2 = 1)
    (ll : ℝ) : iExitAt k.swap ll = iExitAt k ll := by
  unfold iExitAt
  rw [c2aOf_swap k h1 h2 ll, saOf_swap k h1 h2 ll, sOf_swap k h1 h2 ll, csOf_swap,
      ssOf_swap k h1 h2 ll, c2smOf_swap k h1 h2 ll, iUpd_swap k h1 h2 ll]

lemma inverseLoop_swap (p q : LatLon) (k : InvCtx) (eps : ℝ)
    (h1 : k.c1 ^ 2 + k.s1 ^ 2 = 1) (h2 : k.c2 ^ 2 + k.s2 ^ 2 = 1) :
    ∀ (fuel : ℕ) (ll : ℝ),
      inverseLoop q p k.swap eps fuel ll
        = Except.mapError transposeErr (inverseLoop p q k eps fuel ll) := by
  intro fuel
  induction fuel with
  | zero =>
    intro ll
    rfl
  | succ n ih =>
    intro ll
    simp only [inverseLoop]
    rw [ssOf_swap k h1 h2 ll, iUpd_swap k h1 h2 ll, iExitAt_swap k h1 h2 ll]
    split_ifs with hc hs
    · rfl
    · rfl
    · exact ih (iUpd k ll)

lemma map_mapError_comm {ε α β : Type} (e : Except ε α) (f : α → β) (g : ε → ε) :
    (Except.mapError g e).map f = Except.mapError g (e.map f) := by
  cases e <;> rfl

lemma invCtx_swap (p q : LatLon) (E : Ellipsoid) : invCtx q p E = (invCtx p q E).swap := by
  unfold invCtx InvCtx.swap
  rw [abs_sub_comm]

/-- Claim C4: for point pairs on the same datum (and with the same
convergence configuration, which the solver reads from the receiver), the
inverse solve is symmetric: the reversed call returns exactly the same
distance, and fails exactly when the original fails, with the same failure
kind (its point payload transposed). -/
theorem C4_symmetry : ∀ p q : LatLon,
    p.datum = q.datum → p.epsilon = q.epsilon → p.iterations = q.iterations →
    q.distanceTo p = Except.mapError transposeErr (p.distanceTo q) ∧
    (∀ d : ℝ, p.distanceTo q = .ok d ↔ q.distanceTo p = .ok d) := by
  intro p q hdat heps hits
  have h1 : (invCtx p q p.datum.ellipsoid).c1 ^ 2 + (invCtx p q p.datum.ellipsoid).s1 ^ 2 = 1 :=
    r3_unit p.lat p.datum.ellipsoid.f
  have h2 : (invCtx p q p.datum.ellipsoid).c2 ^ 2 + (invCtx p q p.datum.ellipsoid).s2 ^ 2 = 1 :=
    r3_unit q.lat p.datum.ellipsoid.f
  have hmain : q.distanceTo p = Except.mapError transposeErr (p.distanceTo q) := by
    show q._inverseD p = Except.mapError transposeErr (p._inverseD q)
    unfold LatLon._inverseD
    rw [if_pos (by rw [hdat]), if_pos (by rw [hdat])]
    simp only []
    rw [← hdat, heps.symm, hits.symm]
    rw [invCtx_swap p q p.datum.ellipsoid]
    have hdl : ((invCtx p q p.datum.ellipsoid).swap).dl = (invCtx p q p.datum.ellipsoid).dl :=
      rfl
    rw [hdl, inverseLoop_swap p q (invCtx p q p.datum.ellipsoid) p.epsilon h1 h2
      p.iterations (invCtx p q p.datum.ellipsoid).dl]
    rw [map_mapError_comm]
  refine ⟨hmain, ?_⟩
  intro d
  rw [hmain]
  cases h : p.distanceTo q with
  | ok x => simp [Except.mapError]
  | error e => simp [Except.mapError]

/-- A second concrete WGS-84 point, with the default configuration. -/
def qW : LatLon := ⟨58.64402, -3.07009, 0, wgs84D, epsilonDefault, iterationsDefault⟩

/-- Witness for C4 at two concrete points on the same datum. -/
theorem C4_symmetry_witness :
    qW.distanceTo pW = Except.mapError transposeErr (pW.distanceTo qW) :=
  (C4_symmetry pW qW rfl rfl rfl).1

lemma sqrt_one_add_div_sq (x y : ℝ) (hx : x ≠ 0) :
    Real.sqrt (1 + (y / x) ^ 2) * |x| = Real.sqrt (x ^ 2 + y ^ 2) := by
  rw [← Real.sqrt_sq_eq_abs, ← Real.sqrt_mul (by positivity)]
  congr 1
  field_simp

lemma sin_atan2_of_pos (y x : ℝ) (hy : 0 < y) :
    Real.sin (atan2 y x) = y / Real.sqrt (x ^ 2 + y ^ 2) := by
  have hsq : (0:ℝ) < x ^ 2 + y ^ 2 := by positivity
  have hs : 0 < Real.sqrt (x ^ 2 + y ^ 2) := Real.sqrt_pos.mpr hsq
  unfold atan2
  rcases lt_trichotomy x 0 with hx | hx | hx
  · rw [if_neg (by linarith), if_pos hx, if_pos hy.le]
    rw [Real.sin_add_pi, Real.sin_arctan]
    have hxne : x ≠ 0 := ne_of_lt hx
    have hkey := sqrt_one_add_div_sq x y hxne
    rw [abs_of_neg hx] at hkey
    have hsr : Real.sqrt (1 + (y / x) ^ 2) = Real.sqrt (x ^ 2 + y ^ 2) / (-x) := by
      rw [eq_div_iff (by linarith : -x ≠ 0)]
      exact hkey
    rw [hsr]
    field_simp
    ring
  · subst hx
    rw [if_neg (lt_irrefl 0), if_neg (lt_irrefl 0), if_pos hy]
    rw [Real.sin_pi_div_two]
    have h0 : (0:ℝ) ^ 2 + y ^ 2 = y ^ 2 := by ring
    rw [h0, Real.sqrt_sq hy.le]
    exact (div_self hy.ne').symm
  · rw [if_pos hx]
    rw [Real.sin_arctan]
    have hxne : x ≠ 0 := ne_of_gt hx
    have hkey := sqrt_one_add_div_sq x y hxne
    rw [abs_of_pos hx] at hkey
    have hsr : Real.sqrt (1 + (y / x) ^ 2) = Real.sqrt (x ^ 2 + y ^ 2) / x := by
      rw [eq_div_iff hxne]
      exact hkey
    rw [hsr]
    field_simp

/-- The invariant carried by the exit bundle of every successful run of the
inverse convergence loop: all bundle fields are the loop-body formulas
evaluated at the final lambda, the coincidence check passed, and `c2a` is
either the zeroed equatorial value or the non-small `1 - sa^2` with the
matching `c2sm`. -/
structure IExitInv (k : InvCtx) (ex : IExit) : Prop where
  cll_def : ex.cll = Real.cos ex.llPrev
  sll_def : ex.sll = Real.sin ex.llPrev
  ss_def : ex.ss = hypot (k.c2 * ex.sll) (k.c1 * k.s2 - k.s1 * k.c2 * ex.cll)
  ss_ge : EPS ≤ ex.ss
  cs_def : ex.cs = k.s1 * k.s2 + k.c1 * k.c2 * ex.cll
  s_def : ex.s = atan2 ex.ss ex.cs
  sa_def : ex.sa = k.c1 * k.c2 * ex.sll / ex.ss
  c2a_cases : ex.c2a = 0 ∨ (ex.c2a = 1 - ex.sa * ex.sa ∧ EPS ≤ |ex.c2a| ∧
    ex.c2sm = ex.cs - 2 * k.s1 * k.s2 / ex.c2a)

lemma iExitAt_inv (k : InvCtx) (ll : ℝ) (hss : ¬ ssOf k ll < EPS) :
    IExitInv k (iExitAt k ll) := by
  refine ⟨rfl, rfl, rfl, le_of_not_lt hss, rfl, rfl, rfl, ?_⟩
  unfold iExitAt
  dsimp only
  by_cases h : |c2aOf k ll| < EPS
  · rw [if_pos h, if_pos h]
    exact Or.inl rfl
  · rw [if_neg h, if_neg h]
    exact Or.inr ⟨rfl, le_of_not_lt h, rfl⟩

lemma inverseLoop_ok_inv (p q : LatLon) (k : InvCtx) (eps : ℝ) :
    ∀ (fuel : ℕ) (ll : ℝ) (ex : IExit),
      inverseLoop p q k eps fuel ll = .ok ex → IExitInv k ex := by
  intro fuel
  induction fuel with
  | zero => intro ll ex h; exact absurd h (by simp [inverseLoop])
  | succ n ih =>
    intro ll ex h
    simp only [inverseLoop] at h
    by_cases hc : ssOf k ll < EPS
    · rw [if_pos hc] at h
      exact absurd h (by simp)
    · rw [if_neg hc] at h
      by_cases hs : |iUpd k ll - ll| < eps
      · rw [if_pos hs] at h
        have hex : iExitAt k ll = ex := by simpa using h
        rw [← hex]
        exact iExitAt_inv k ll hc
      · rw [if_neg hs] at h
        exact ih _ _ h

set_option maxHeartbeats 1000000 in
lemma ds_le_bound (B cs ss c2sm : ℝ) (hB0 : 0 ≤ B) (hB1 : B ≤ 1/96)
    (hcs0 : -1 ≤ cs) (hcs1 : cs ≤ 1) (hssnn : 0 ≤ ss) (hss1 : ss ≤ 1)
    (hm0 : -3 ≤ c2sm) (hm1 : c2sm ≤ 3) :
    _ds B cs ss c2sm ≤ ss / 24 := by
  simp only [_ds]
  have ht1a : -1 ≤ 2*c2sm*c2sm - 1 := by nlinarith [sq_nonneg c2sm]
  have ht1b : 2*c2sm*c2sm - 1 ≤ 17 := by nlinarith
  have ht2a : -3 ≤ ss*ss*4 - 3 := by nlinarith [sq_nonneg ss]
  have ht2b : ss*ss*4 - 3 ≤ 1 := by nlinarith
  generalize hg1 : 2*c2sm*c2sm - 1 = t1 at ht1a ht1b ⊢
  generalize hg2 : ss*ss*4 - 3 = t2 at ht2a ht2b ⊢
  have ht3a : -3 ≤ t1*2 - 1 := by linarith
  have ht3b : t1*2 - 1 ≤ 33 := by linarith
  have ht4a : -111 ≤ t2*(t1*2-1) := by nlinarith
  have ht4b : t2*(t1*2-1) ≤ 111 := by nlinarith
  generalize hg4 : t2*(t1*2-1) = t4 at ht4a ht4b ⊢
  have hXa : -1 ≤ B/6*c2sm*t4 := by
    nlinarith [mul_nonneg hB0 (by nlinarith : (0:ℝ) ≤ c2sm*t4 + 333)]
  have hXb : B/6*c2sm*t4 ≤ 1 := by
    nlinarith [mul_nonneg hB0 (by nlinarith : (0:ℝ) ≤ 333 - c2sm*t4)]
  generalize hgX : B/6*c2sm*t4 = X at hXa hXb ⊢
  have ht6a : -17 ≤ t1*cs := by nlinarith
  have ht6b : t1*cs ≤ 17 := by nlinarith
  generalize hg6 : t1*cs = t6 at ht6a ht6b ⊢
  have hYa : -1 ≤ B/4*(t6 - X) := by
    nlinarith [mul_nonneg hB0 (by linarith : (0:ℝ) ≤ t6 - X + 18)]
  have hYb : B/4*(t6 - X) ≤ 1 := by
    nlinarith [mul_nonneg hB0 (by linarith : (0:ℝ) ≤ 18 - (t6 - X))]
  generalize hgY : B/4*(t6 - X) = Y at hYa hYb ⊢
  have h1 : B*ss*(c2sm + Y) ≤ B*ss*4 :=
    mul_le_mul_of_nonneg_left (by linarith) (mul_nonneg hB0 hssnn)
  have h2 : B*ss ≤ ss/96 := by nlinarith [mul_le_mul_of_nonneg_right hB1 hssnn]
  linarith

lemma p2_A_ge_one (c2a e22 : ℝ) (h0 : 0 ≤ c2a * e22) (h1 : c2a * e22 ≤ 1/24) :
    1 ≤ (_p2 c2a e22).1 := by
  simp only [_p2]
  have hbr : (0:ℝ) ≤ 4096 + c2a * e22 * (-768 + c2a * e22 * (320 - 175 * (c2a * e22))) := by
    nlinarith [mul_nonneg (by linarith : (0:ℝ) ≤ 1/24 - c2a * e22) (sq_nonneg (c2a * e22)),
      mul_nonneg (by linarith : (0:ℝ) ≤ 1/24 - c2a * e22) h0, sq_nonneg (c2a * e22)]
  have hm := mul_nonneg (div_nonneg h0 (by norm_num : (0:ℝ) ≤ 16384)) hbr
  linarith

lemma p2_B_bounds (c2a e22 : ℝ) (h0 : 0 ≤ c2a * e22) (h1 : c2a * e22 ≤ 1/24) :
    0 ≤ (_p2 c2a e22).2 ∧ (_p2 c2a e22).2 ≤ 1/96 := by
  simp only [_p2]
  have hin3a : (0:ℝ) ≤ 74 - 47 * (c2a * e22) := by linarith
  have hin2b : -128 + c2a * e22 * (74 - 47 * (c2a * e22)) ≤ 0 := by
    nlinarith [mul_nonneg h0 hin3a]
  have hin2a : (-128 : ℝ) ≤ -128 + c2a * e22 * (74 - 47 * (c2a * e22)) :=
    by nlinarith [mul_nonneg h0 hin3a]
  have hin1a : (0:ℝ) ≤ 256 + c2a * e22 * (-128 + c2a * e22 * (74 - 47 * (c2a * e22))) := by
    nlinarith [mul_nonneg h0 (by linarith : (0:ℝ) ≤ -128 + c2a * e22 *
      (74 - 47 * (c2a * e22)) + 128)]
  have hin1b : 256 + c2a * e22 * (-128 + c2a * e22 * (74 - 47 * (c2a * e22))) ≤ 256 := by
    nlinarith [mul_nonpos_of_nonneg_of_nonpos h0 hin2b]
  constructor
  · exact mul_nonneg (div_nonneg h0 (by norm_num)) hin1a
  · have hstep := mul_le_mul_of_nonneg_left hin1b
      (div_nonneg h0 (by norm_num : (0:ℝ) ≤ 1024))
    nlinarith [hstep, h1]

lemma unit_bounds (a b : ℝ) (h : a ^ 2 + b ^ 2 = 1) : -1 ≤ b ∧ b ≤ 1 := by
  constructor <;> nlinarith [sq_nonneg a, sq_nonneg (b - 1), sq_nonneg (b + 1)]

lemma le_of_sq_le_sq_nonneg (M X : ℝ) (hX : 0 ≤ X) (h : M ^ 2 ≤ X ^ 2) : M ≤ X := by
  nlinarith [sq_nonneg (M - X), sq_nonneg (M + X)]

lemma neg_le_of_sq_le_sq_nonneg (M X : ℝ) (hX : 0 ≤ X) (h : M ^ 2 ≤ X ^ 2) : -X ≤ M := by
  nlinarith [sq_nonneg (M - X), sq_nonneg (M + X)]

lemma mul_le_of_unit_interval (a b : ℝ) (ha0 : 0 ≤ a) (ha1 : a ≤ 1) (hb0 : 0 ≤ b)
    (hb1 : b ≤ 1/24) : a * b ≤ 1/24 := by nlinarith

set_option maxHeartbeats 1000000 in
lemma invDistance_nonneg (E : Ellipsoid) (k : InvCtx) (ex : IExit)
    (hb : 0 ≤ E.b) (he0 : 0 ≤ E.e22) (he1 : E.e22 ≤ 1/24)
    (hk1 : k.c1 ^ 2 + k.s1 ^ 2 = 1) (hk2 : k.c2 ^ 2 + k.s2 ^ 2 = 1)
    (hinv : IExitInv k ex) : 0 ≤ invDistance E ex := by
  have hEPS : (0:ℝ) < EPS := by norm_num [EPS]
  have hss0 : 0 < ex.ss := lt_of_lt_of_le hEPS hinv.ss_ge
  have hlluni : ex.sll ^ 2 + ex.cll ^ 2 = 1 := by
    rw [hinv.sll_def, hinv.cll_def]
    exact Real.sin_sq_add_cos_sq ex.llPrev
  have hss2 : ex.ss ^ 2 = (k.c2 * ex.sll) ^ 2 + (k.c1 * k.s2 - k.s1 * k.c2 * ex.cll) ^ 2 := by
    rw [hinv.ss_def]
    exact hypot_sq _ _
  have huni : ex.ss ^ 2 + ex.cs ^ 2 = 1 := by
    rw [hss2, hinv.cs_def]
    linear_combination (k.s2 ^ 2 + k.c2 ^ 2 * ex.cll ^ 2) * hk1 + hk2 + k.c2 ^ 2 * hlluni
  have hcsb := unit_bounds ex.ss ex.cs huni
  have hcs_le : ex.cs ≤ 1 := hcsb.2
  have hcs_ge : -1 ≤ ex.cs := hcsb.1
  have hss_le1 : ex.ss ≤ 1 :=
    (unit_bounds ex.cs ex.ss (by linarith : ex.cs ^ 2 + ex.ss ^ 2 = 1)).2
  have hs_mem : 0 ≤ ex.s ∧ ex.s ≤ π := by
    rw [hinv.s_def]
    exact atan2_mem_of_y_nonneg _ _ hss0.le
  have hsin : Real.sin ex.s = ex.ss := by
    rw [hinv.s_def, sin_atan2_of_pos _ _ hss0]
    rw [show ex.cs ^ 2 + ex.ss ^ 2 = 1 by linarith]
    rw [Real.sqrt_one, div_one]
  have hss_le_s : ex.ss ≤ ex.s := by
    rcases hs_mem.1.eq_or_lt with he | hpos
    · rw [← he, Real.sin_zero] at hsin
      linarith
    · have hlt := Real.sin_lt hpos
      rw [hsin] at hlt
      linarith
  rcases hinv.c2a_cases with h0 | hmain
  · unfold invDistance
    rw [if_pos h0]
    exact mul_nonneg hb hs_mem.1
  · obtain ⟨hc2a, hcge, hc2sm⟩ := hmain
    have hsa_ss : ex.sa * ex.ss = k.c1 * k.c2 * ex.sll := by
      rw [hinv.sa_def]
      field_simp
    have hD_def : ex.c2a * ex.ss ^ 2 = ex.ss ^ 2 - (k.c1 * k.c2 * ex.sll) ^ 2 := by
      rw [hc2a]
      linear_combination (-(ex.sa * ex.ss + k.c1 * k.c2 * ex.sll)) * hsa_ss
    have hgap1 : ex.c2a * ex.ss ^ 2 - k.s1 ^ 2 * ex.ss ^ 2
        = (k.c1 * (k.c1 * k.s2 - k.s1 * k.c2 * ex.cll)) ^ 2 := by
      linear_combination hD_def - ex.ss ^ 2 * hk1 + k.c1 ^ 2 * hss2
    have hss2q : ex.ss ^ 2 = (k.c1 * ex.sll) ^ 2 + (k.c2 * k.s1 - k.s2 * k.c1 * ex.cll) ^ 2 := by
      linear_combination hss2 - (ex.sll ^ 2 * k.c2 ^ 2) * hk1 + (ex.sll ^ 2 * k.c1 ^ 2) * hk2 -
        (k.c1 ^ 2 * k.s2 ^ 2 - k.s1 ^ 2 * k.c2 ^ 2) * hlluni
    have hgap2 : ex.c2a * ex.ss ^ 2 - k.s2 ^ 2 * ex.ss ^ 2
        = (k.c2 * (k.c2 * k.s1 - k.s2 * k.c1 * ex.cll)) ^ 2 := by
      linear_combination hD_def - ex.ss ^ 2 * hk2 + k.c2 ^ 2 * hss2q
    have hD1 : k.s1 ^ 2 * ex.ss ^ 2 ≤ ex.c2a * ex.ss ^ 2 := by
      linarith [sq_nonneg (k.c1 * (k.c1 * k.s2 - k.s1 * k.c2 * ex.cll)), hgap1]
    have hD2 : k.s2 ^ 2 * ex.ss ^ 2 ≤ ex.c2a * ex.ss ^ 2 := by
      linarith [sq_nonneg (k.c2 * (k.c2 * k.s1 - k.s2 * k.c1 * ex.cll)), hgap2]
    have hX0 : 0 ≤ ex.c2a * ex.ss ^ 2 := le_trans (by positivity) hD1
    have hss2pos : 0 < ex.ss ^ 2 := by positivity
    have hc2a_nonneg : 0 ≤ ex.c2a := by
      have hrw : ex.c2a = ex.c2a * ex.ss ^ 2 / ex.ss ^ 2 := by field_simp
      rw [hrw]
      exact div_nonneg hX0 hss2pos.le
    have hc2a_pos : 0 < ex.c2a := by
      rw [abs_of_nonneg hc2a_nonneg] at hcge
      linarith
    have hstep : (k.s1 ^ 2 * ex.ss ^ 2) * (k.s2 ^ 2 * ex.ss ^ 2)
        ≤ (ex.c2a * ex.ss ^ 2) * (ex.c2a * ex.ss ^ 2) :=
      mul_le_mul hD1 hD2 (by positivity) hX0
    have h4 : (k.s1 * k.s2) ^ 2 * (ex.ss ^ 2) ^ 2 ≤ ex.c2a ^ 2 * (ex.ss ^ 2) ^ 2 := by
      have e1 : (k.s1 * k.s2) ^ 2 * (ex.ss ^ 2) ^ 2
          = (k.s1 ^ 2 * ex.ss ^ 2) * (k.s2 ^ 2 * ex.ss ^ 2) := by ring
      have e2 : ex.c2a ^ 2 * (ex.ss ^ 2) ^ 2
          = (ex.c2a * ex.ss ^ 2) * (ex.c2a * ex.ss ^ 2) := by ring
      rw [e1, e2]
      exact hstep
    have hsq : (k.s1 * k.s2) ^ 2 ≤ ex.c2a ^ 2 :=
      (mul_le_mul_right (by positivity : (0:ℝ) < (ex.ss ^ 2) ^ 2)).mp h4
    have hMle2 : k.s1 * k.s2 ≤ ex.c2a := le_of_sq_le_sq_nonneg _ _ hc2a_nonneg hsq
    have hMge2 : -ex.c2a ≤ k.s1 * k.s2 := neg_le_of_sq_le_sq_nonneg _ _ hc2a_nonneg hsq
    have hdivle : 2 * k.s1 * k.s2 / ex.c2a ≤ 2 := by
      rw [div_le_iff hc2a_pos]
      linarith
    have hdivge : -2 ≤ 2 * k.s1 * k.s2 / ex.c2a := by
      rw [le_div_iff hc2a_pos]
      linarith
    have hm_le : ex.c2sm ≤ 3 := by rw [hc2sm]; linarith
    have hm_ge : -3 ≤ ex.c2sm := by rw [hc2sm]; linarith
    have hc2a_le1 : ex.c2a ≤ 1 := by
      rw [hc2a]
      linarith [mul_self_nonneg ex.sa]
    have hu0 : 0 ≤ ex.c2a * E.e22 := mul_nonneg hc2a_nonneg he0
    have hu1 : ex.c2a * E.e22 ≤ 1/24 :=
      mul_le_of_unit_interval ex.c2a E.e22 hc2a_nonneg hc2a_le1 he0 he1
    have hA := p2_A_ge_one ex.c2a E.e22 hu0 hu1
    have hB := p2_B_bounds ex.c2a E.e22 hu0 hu1
    have hds := ds_le_bound (_p2 ex.c2a E.e22).2 ex.cs ex.ss ex.c2sm hB.1 hB.2
      hcs_ge hcs_le hss0.le hss_le1 hm_ge hm_le
    unfold invDistance
    rw [if_neg hc2a_pos.ne']
    have hsds : 0 ≤ ex.s - _ds (_p2 ex.c2a E.e22).2 ex.cs ex.ss ex.c2sm := by
      have : ex.ss / 24 ≤ ex.s := by linarith
      linarith
    exact mul_nonneg hb (mul_nonneg (by linarith) hsds)

lemma map_ok {ε α β : Type} (e : Except ε α) (f : α → β) (b : β) (h : e.map f = .ok b) :
    ∃ a, e = .ok a ∧ f a = b := by
  cases e with
  | ok a => exact ⟨a, rfl, by simpa [Except.map] using h⟩
  | error e => exact absurd h (by simp [Except.map])

lemma degrees90_atan2_bounds (y f hv : ℝ) (hf1 : f ≤ 1) (hhv : 0 ≤ hv) :
    -90 ≤ degrees90 (atan2 y ((1 - f) * hv)) ∧ degrees90 (atan2 y ((1 - f) * hv)) ≤ 90 := by
  have hx : 0 ≤ (1 - f) * hv := mul_nonneg (by linarith) hhv
  have hm := atan2_mem_of_x_nonneg y _ hx
  exact degrees90_mem _ hm.1 hm.2

lemma direct2_ok_bounds (p : LatLon) (distance bearing : ℝ)
    (hf1 : p.datum.ellipsoid.f ≤ 1) (dest : LatLon) (fb : ℝ)
    (h : p._direct2 distance bearing = .ok (dest, fb)) :
    (0 ≤ fb ∧ fb < 360) ∧ -90 ≤ dest.lat ∧ dest.lat ≤ 90 ∧
      -180 < dest.lon ∧ dest.lon ≤ 180 := by
  unfold LatLon._direct2 at h
  simp only [] at h
  obtain ⟨ex, hex, hv⟩ := map_ok _ _ _ h
  have hdest := congrArg Prod.fst hv
  have hfb := congrArg Prod.snd hv
  simp only [] at hdest hfb
  refine ⟨?_, ?_, ?_, ?_, ?_⟩
  · rw [← hfb]
    exact degrees360_mem _
  · rw [← hdest]
    exact (degrees90_atan2_bounds _ _ _ hf1 (hypot_nonneg _ _)).1
  · rw [← hdest]
    exact (degrees90_atan2_bounds _ _ _ hf1 (hypot_nonneg _ _)).2
  · rw [← hdest]
    exact (degrees180_mem _).1
  · rw [← hdest]
    exact (degrees180_mem _).2

lemma inverse3_ok_bounds (p q : LatLon)
    (hb : 0 ≤ p.datum.ellipsoid.b) (he0 : 0 ≤ p.datum.ellipsoid.e22)
    (he1 : p.datum.ellipsoid.e22 ≤ 1/24) (d ib fb : ℝ)
    (h : p._inverse3 q = .ok (d, ib, fb)) :
    0 ≤ d ∧ (0 ≤ ib ∧ ib < 360) ∧ (0 ≤ fb ∧ fb < 360) := by
  unfold LatLon._inverse3 at h
  by_cases hname : p.datum.ellipsoid.name = q.datum.ellipsoid.name
  · rw [if_pos hname] at h
    simp only [] at h
    obtain ⟨ex, hex, hv⟩ := map_ok _ _ _ h
    have hinv := inverseLoop_ok_inv p q _ _ _ _ _ hex
    have hd := congrArg Prod.fst hv
    have hib := congrArg (fun z => z.2.1) hv
    have hfb := congrArg (fun z => z.2.2) hv
    simp only [] at hd hib hfb
    refine ⟨?_, ?_, ?_⟩
    · rw [← hd]
      exact invDistance_nonneg _ _ _ hb he0 he1 (r3_unit p.lat _) (r3_unit q.lat _) hinv
    · rw [← hib]
      exact degrees360_mem _
    · rw [← hfb]
      exact degrees360_mem _
  · rw [if_neg hname] at h
    exact absurd h (by simp)

/-- Claim C1: every successful direct solve (destination, destination2,
finalBearingOn) and every successful inverse solve with bearings
(distanceTo3, initialBearingTo, finalBearingTo) returns bearings in
[0, 360), a destination latitude in [-90, 90], a destination longitude in
(-180, 180], and a distance that is nonnegative, for every registry-shaped
ellipsoid (nonnegative semi-minor axis, flattening at most 1, second
eccentricity squared in [0, 1/24]). -/
theorem C1_result_bounds : ∀ (p q : LatLon) (distance bearing : ℝ),
    0 ≤ p.datum.ellipsoid.b → p.datum.ellipsoid.f ≤ 1 →
    0 ≤ p.datum.ellipsoid.e22 → p.datum.ellipsoid.e22 ≤ 1/24 →
    (∀ d ib fb, p.distanceTo3 q = .ok (d, ib, fb) →
      0 ≤ d ∧ (0 ≤ ib ∧ ib < 360) ∧ (0 ≤ fb ∧ fb < 360)) ∧
    (∀ r, p.initialBearingTo q = .ok r → 0 ≤ r ∧ r < 360) ∧
    (∀ r, p.finalBearingTo q = .ok r → 0 ≤ r ∧ r < 360) ∧
    (∀ dest fb, p.destination2 distance bearing = .ok (dest, fb) →
      (0 ≤ fb ∧ fb < 360) ∧ -90 ≤ dest.lat ∧ dest.lat ≤ 90 ∧
        -180 < dest.lon ∧ dest.lon ≤ 180) ∧
    (∀ dest, p.destination distance bearing = .ok dest →
      -90 ≤ dest.lat ∧ dest.lat ≤ 90 ∧ -180 < dest.lon ∧ dest.lon ≤ 180) ∧
    (∀ r, p.finalBearingOn distance bearing = .ok r → 0 ≤ r ∧ r < 360) := by
  intro p q distance bearing hb hf1 he0 he1
  refine ⟨?_, ?_, ?_, ?_, ?_, ?_⟩
  · intro d ib fb h
    exact inverse3_ok_bounds p q hb he0 he1 d ib fb h
  · intro r h
    obtain ⟨t, ht, hr⟩ := map_ok _ _ _ h
    have hall := inverse3_ok_bounds p q hb he0 he1 t.1 t.2.1 t.2.2 (by rw [ht])
    rw [← hr]
    exact hall.2.1
  · intro r h
    obtain ⟨t, ht, hr⟩ := map_ok _ _ _ h
    have hall := inverse3_ok_bounds p q hb he0 he1 t.1 t.2.1 t.2.2 (by rw [ht])
    rw [← hr]
    exact hall.2.2
  · intro dest fb h
    exact direct2_ok_bounds p distance bearing hf1 dest fb h
  · intro dest h
    obtain ⟨pr, hpr, hd⟩ := map_ok _ _ _ h
    have hall := direct2_ok_bounds p distance bearing hf1 pr.1 pr.2 (by rw [hpr])
    rw [← hd]
    exact hall.2
  · intro r h
    unfold LatLon.finalBearingOn LatLon._directFB at h
    simp only [] at h
    obtain ⟨ex, hex, hr⟩ := map_ok _ _ _ h
    rw [← hr]
    exact degrees360_mem _

/-- A concrete point on the spherical datum: the equator at longitude 0. -/
def pE : LatLon := ⟨0, 0, 0, sphereD, epsilonDefault, iterationsDefault⟩

/-- A concrete point on the spherical datum: the equator at longitude 90. -/
def qE : LatLon := ⟨0, 90, 0, sphereD, epsilonDefault, iterationsDefault⟩

/-- The inverse context of the pair `(pE, qE)`. -/
def kE : InvCtx := ⟨0, π/2, 1, 0, 1, 0⟩

lemma r3_zero : _r3 0 0 = (1, 0, 0) := by
  unfold _r3 radians hypot
  norm_num [Real.tan_zero, Real.sqrt_one]

lemma kE_eq : invCtx pE qE pE.datum.ellipsoid = kE := by
  unfold invCtx kE pE qE sphereD
  norm_num [r3_zero, radians]
  ring

lemma ssE : ssOf kE (π/2) = 1 := by
  unfold ssOf kE hypot
  norm_num [Real.sin_pi_div_two, Real.cos_pi_div_two, Real.sqrt_one]

lemma saE : saOf kE (π/2) = 1 := by
  unfold saOf
  rw [show kE.c1 = 1 from rfl, show kE.c2 = 1 from rfl, ssE]
  norm_num [Real.sin_pi_div_two]

lemma c2aE : c2aOf kE (π/2) = 0 := by
  unfold c2aOf
  rw [saE]
  norm_num

lemma csE : csOf kE (π/2) = 0 := by
  unfold csOf kE
  norm_num [Real.cos_pi_div_two]

lemma sE : sOf kE (π/2) = π/2 := by
  unfold sOf
  rw [ssE, csE]
  unfold atan2
  norm_num

lemma updE : iUpd kE (π/2) = π/2 := by
  unfold iUpd
  rw [c2aE]
  rw [if_pos (by norm_num [EPS])]
  rw [saE, sE, show kE.f = 0 from rfl, show kE.dl = π/2 from rfl]
  ring

lemma loopE : inverseLoop pE qE kE pE.epsilon pE.iterations kE.dl = .ok (iExitAt kE (π/2)) := by
  have hstop : |π/2 - π/2| < pE.epsilon := by
    rw [show pE.epsilon = epsilonDefault from rfl]
    norm_num [epsilonDefault]
  rw [show pE.iterations = 49 + 1 from rfl, show kE.dl = π/2 from rfl]
  show (if ssOf kE (π/2) < EPS then _
        else if |iUpd kE (π/2) - π/2| < pE.epsilon then _ else _) = _
  rw [ssE, updE]
  rw [if_neg (by norm_num [EPS])]
  rw [if_pos hstop]

lemma degrees_pi_div_two : degrees (π/2) = 90 := by
  unfold degrees
  field_simp
  ring

lemma wrap90at360 : wrapDeg 90 360 = 90 := by
  simp only [wrapDeg]
  have hf : ⌊(90:ℝ) / 360⌋ = 0 := by
    rw [Int.floor_eq_zero_iff]
    constructor
    · norm_num
    · norm_num
  rw [hf]
  norm_num

lemma deg360_pi_div_two : degrees360 (π/2) = 90 := by
  unfold degrees360
  rw [degrees_pi_div_two, wrap90at360]

lemma distE : invDistance pE.datum.ellipsoid (iExitAt kE (π/2)) = π/2 := by
  unfold invDistance iExitAt
  rw [c2aE]
  rw [ite_self]
  rw [if_pos rfl]
  show pE.datum.ellipsoid.b * sOf kE (π/2) = π/2
  rw [sE, show pE.datum.ellipsoid.b = 1 from rfl]
  ring

lemma fwdE : invForward kE (iExitAt kE (π/2)) = 90 := by
  unfold invForward iExitAt
  simp only []
  rw [show kE.c1 = 1 from rfl, show kE.c2 = 1 from rfl, show kE.s1 = 0 from rfl,
      show kE.s2 = 0 from rfl]
  norm_num [Real.sin_pi_div_two, Real.cos_pi_div_two]
  rw [show atan2 1 0 = π/2 by unfold atan2; norm_num]
  exact deg360_pi_div_two

lemma revE : invReverse kE (iExitAt kE (π/2)) = 90 := by
  unfold invReverse iExitAt
  simp only []
  rw [show kE.c1 = 1 from rfl, show kE.c2 = 1 from rfl, show kE.s1 = 0 from rfl,
      show kE.s2 = 0 from rfl]
  norm_num [Real.sin_pi_div_two, Real.cos_pi_div_two]
  rw [show atan2 1 0 = π/2 by unfold atan2; norm_num]
  exact deg360_pi_div_two

lemma evalE : pE.distanceTo3 qE = .ok (π/2, 90, 90) := by
  show pE._inverse3 qE = _
  unfold LatLon._inverse3
  rw [if_pos (show pE.datum.ellipsoid.name = qE.datum.ellipsoid.name from rfl)]
  simp only []
  rw [kE_eq, loopE]
  simp only [Except.map]
  rw [distE, fwdE, revE]

/-- Witness for C1: the concrete successful inverse solve between two
equatorial points a quarter turn apart on the spherical datum. -/
theorem C1_result_bounds_witness :
    0 ≤ π/2 ∧ ((0:ℝ) ≤ 90 ∧ (90:ℝ) < 360) := by
  have h := ((C1_result_bounds pE qE 0 0
    (by norm_num [pE, sphereD]) (by norm_num [pE, sphereD])
    (by norm_num [pE, sphereD]) (by norm_num [pE, sphereD])).1 (π/2) 90 90 evalE)
  exact ⟨h.1, h.2.1⟩
